import Mathlib

/-!
Shallow embedding of the memory-management core of the rust-hosted-langs
interpreter (crates `blockalloc`, `stickyimmix`, `interpreter`), together
with proofs about the behaviour its specification describes.

Machine integers (`usize`, `isize`) are modelled as `Nat` / `Int`; wrapping
is written explicitly (`% 2^64`) at the places where the Rust code can wrap.
Raw pointers are modelled as `Nat` addresses.  Heap-mutating Rust methods are
modelled as state-passing functions.  The OS block allocator
(`posix_memalign` behind `blockalloc::internal::alloc_block`) is modelled as
an oracle parameter, with its documented contract stated as hypotheses where
a proof needs it.
-/

/-! ## Constants (stickyimmix/src/constants.rs) -/

/-- `BLOCK_SIZE_BITS` (constants.rs line 4). -/
def BLOCK_SIZE_BITS : Nat := 15

/-- `BLOCK_SIZE = 1 << BLOCK_SIZE_BITS` (constants.rs line 5). -/
def BLOCK_SIZE : Nat := 1 <<< BLOCK_SIZE_BITS

/-- `LINE_SIZE_BITS` (constants.rs line 10). -/
def LINE_SIZE_BITS : Nat := 7

/-- `LINE_SIZE = 1 << LINE_SIZE_BITS` (constants.rs line 11). -/
def LINE_SIZE : Nat := 1 <<< LINE_SIZE_BITS

/-- `LINE_COUNT = BLOCK_SIZE / LINE_SIZE` (constants.rs line 14). -/
def LINE_COUNT : Nat := BLOCK_SIZE / LINE_SIZE

/-- `BLOCK_CAPACITY = BLOCK_SIZE - LINE_COUNT` (constants.rs line 18). -/
def BLOCK_CAPACITY : Nat := BLOCK_SIZE - LINE_COUNT

/-- `size_of::<usize>()` on the 64-bit targets the interpreter is built for. -/
def WORD_SIZE : Nat := 8

/-- One past the largest `usize` value: `2^64`. -/
def USIZE_MOD : Nat := 2 ^ 64

/-- `MAX_ALLOC_SIZE = std::u32::MAX as usize` (constants.rs line 29). -/
def MAX_ALLOC_SIZE : Nat := 2 ^ 32 - 1

/-- `ALLOC_ALIGN_MASK = !(size_of::<usize>() - 1)` (constants.rs line 30),
as the 64-bit word `2^64 - 8` whose bits 3..63 are set. -/
def ALLOC_ALIGN_MASK : Nat := USIZE_MOD - WORD_SIZE

/-- `SMALL_OBJECT_MIN` (constants.rs line 33). -/
def SMALL_OBJECT_MIN : Nat := 1

/-- `SMALL_OBJECT_MAX = LINE_SIZE` (constants.rs line 34). -/
def SMALL_OBJECT_MAX : Nat := LINE_SIZE

/-- `MEDIUM_OBJECT_MIN = SMALL_OBJECT_MAX + 1` (constants.rs line 35). -/
def MEDIUM_OBJECT_MIN : Nat := SMALL_OBJECT_MAX + 1

/-- `MEDIUM_OBJECT_MAX = BLOCK_CAPACITY` (constants.rs line 36). -/
def MEDIUM_OBJECT_MAX : Nat := BLOCK_CAPACITY

/-- `LARGE_OBJECT_MIN = MEDIUM_OBJECT_MAX + 1` (constants.rs line 37). -/
def LARGE_OBJECT_MIN : Nat := MEDIUM_OBJECT_MAX + 1

/-- `LARGE_OBJECT_MAX = MAX_ALLOC_SIZE` (constants.rs line 38). -/
def LARGE_OBJECT_MAX : Nat := MAX_ALLOC_SIZE

/-! ## Bit-masking helpers

The bump allocator computes `ptr & ALLOC_ALIGN_MASK` on `usize` values.  On
the `usize` domain (`x < 2^64`) that bitwise AND equals clearing the low
three bits, i.e. `x - x % 8`.  We use the arithmetic form in the state
functions, so that addresses do not have to carry an explicit `2^64` bound
through every lemma, and prove the equivalence with the literal mask in
`alignDown_eq_and_mask`. -/

/-- `x & !(size_of::<usize>() - 1)` on the `usize` domain: round `x` down to
a word (8-byte) boundary. -/
def alignDown (x : Nat) : Nat := x - x % WORD_SIZE

/-! ## blockalloc (blockalloc/src/lib.rs)

`Block::new(size)` validates that the requested size is a power of two and
then asks the platform allocator.  On the Unix targets this repository builds
for, the platform call is `posix_memalign(&addr, size, size)`
(lib.rs lines 132-144), whose outcomes the `internal` module maps to
`BlockError`.  `posix_memalign` itself is libc, not repository code, so it is
modelled as an oracle together with its documented contract. -/

/-- `BlockError` (blockalloc/src/lib.rs lines 16-22). -/
inductive BlockError where
  | BadRequest : BlockError
  | OOM : BlockError
deriving DecidableEq

/-- Outcomes of `posix_memalign`: success with an address, `EINVAL`, or
`ENOMEM` (blockalloc/src/lib.rs lines 132-144). -/
inductive MemalignResult where
  | ok : Nat → MemalignResult
  | einval : MemalignResult
  | enomem : MemalignResult
deriving DecidableEq

/-- A `Block`: base pointer plus size (blockalloc/src/lib.rs lines 27-30). -/
structure Block where
  ptr : Nat
  size : Nat
deriving DecidableEq

/-- Wrapping `size - 1` on `usize`: release-mode Rust two's-complement
subtraction, so `0 - 1 = 2^64 - 1`. -/
def wrappingSubOne (n : Nat) : Nat := if n = 0 then USIZE_MOD - 1 else n - 1

/-- `Block::new(size)` (blockalloc/src/lib.rs lines 36-47): reject sizes with
`size & (size - 1) != 0`, otherwise call the platform allocator
(`posix_memalign(.., size, size)`, mapped `0 -> Ok`, `EINVAL -> BadRequest`,
`ENOMEM -> OOM` per lib.rs lines 132-144). -/
def Block.new (memalign : Nat → Nat → MemalignResult) (size : Nat) :
    Except BlockError Block :=
  if ¬ (size &&& wrappingSubOne size = 0) then Except.error BlockError.BadRequest
  else
    match memalign size size with
    | MemalignResult.ok addr => Except.ok { ptr := addr, size := size }
    | MemalignResult.einval => Except.error BlockError.BadRequest
    | MemalignResult.enomem => Except.error BlockError.OOM

/-- The documented `posix_memalign` contract: `EINVAL` whenever the requested
alignment is not a power of two at least `size_of::<void*>() = 8`, and on
success a nonzero address that is a multiple of the alignment. -/
def MemalignContract (memalign : Nat → Nat → MemalignResult) : Prop :=
  (∀ align sz, ¬ (WORD_SIZE ≤ align ∧ align &&& (align - 1) = 0) →
    memalign align sz = MemalignResult.einval) ∧
  (∀ align sz addr, memalign align sz = MemalignResult.ok addr →
    addr % align = 0 ∧ addr ≠ 0)

/-! ## BlockMeta (stickyimmix/src/blockmeta.rs)

The line-mark array is modelled as a function `Nat → Bool` (`true` = the
mark byte is nonzero).  `find_next_available_hole` (blockmeta.rs lines
59-103) walks the marks downward from `starting_at / LINE_SIZE - 1`,
counting consecutive unmarked lines. -/

/-- The loop of `find_next_available_hole`.  The first argument is the number
of indices still to visit; the loop body processes `index = n` when called
with `n + 1`, matching `for index in (0..starting_line).rev()`.  `count` and
`e` are the mutable `count` and `end` of the source. -/
def findHoleLoop (marks : Nat → Bool) (linesRequired : Nat) :
    Nat → Nat → Nat → Option (Nat × Nat)
  | 0, _, _ => none
  | n + 1, count, e =>
    let index := n
    if marks index then
      if count > linesRequired then
        some (e * LINE_SIZE, (index + 2) * LINE_SIZE)
      else
        findHoleLoop marks linesRequired n 0 index
    else
      let count2 := count + 1
      if index = 0 ∧ count2 ≥ linesRequired then
        some (e * LINE_SIZE, index * LINE_SIZE)
      else
        findHoleLoop marks linesRequired n count2 e

/-- `BlockMeta::find_next_available_hole(starting_at, alloc_size)`
(blockmeta.rs lines 59-103). -/
def find_next_available_hole (marks : Nat → Bool) (starting_at alloc_size : Nat) :
    Option (Nat × Nat) :=
  let starting_line := starting_at / LINE_SIZE
  let lines_required := (alloc_size + LINE_SIZE - 1) / LINE_SIZE
  findHoleLoop marks lines_required starting_line 0 starting_line

/-! ## BumpBlock (stickyimmix/src/bumpblock.rs)

A `BumpBlock` owns one block and its mark metadata; `cursor` and `limit`
are absolute addresses (the source stores `*const u8`).  `base` stands for
`self.block.as_ptr()`. -/

/-- `BumpBlock` (bumpblock.rs lines 25-30). -/
structure BumpBlock where
  base : Nat
  cursor : Nat
  limit : Nat
  lineMark : Nat → Bool

/-- `BumpBlock::new()` applied to a freshly OS-provided block at `base`
(bumpblock.rs lines 36-48): `cursor = base + BLOCK_CAPACITY`,
`limit = base`, all line marks reset. -/
def BumpBlock.new (base : Nat) : BumpBlock :=
  { base := base, cursor := base + BLOCK_CAPACITY, limit := base,
    lineMark := fun _ => false }

/-- `BumpBlock::current_hole_size()` (bumpblock.rs lines 91-93). -/
def BumpBlock.current_hole_size (b : BumpBlock) : Nat := b.cursor - b.limit

/-- The recursion of `BumpBlock::inner_alloc` (bumpblock.rs lines 61-87),
with a fuel argument for totality.  Each self-call strictly lowers `limit`
by at least one line, so `LINE_COUNT + 1` units of fuel always cover the
source's recursion; see `BumpBlock.inner_alloc`. -/
def BumpBlock.innerAllocGo : Nat → BumpBlock → Nat → Option (BumpBlock × Nat)
  | 0, _, _ => none
  | fuel + 1, b, alloc_size =>
    if b.cursor < alloc_size then none
    else
      let next_ptr := alignDown (b.cursor - alloc_size)
      if next_ptr < b.limit then
        let block_relative_limit := b.limit - b.base
        if block_relative_limit > 0 then
          match find_next_available_hole b.lineMark block_relative_limit alloc_size with
          | some (cursor, limit) =>
            BumpBlock.innerAllocGo fuel
              { b with cursor := b.base + cursor, limit := b.base + limit } alloc_size
          | none => none
        else none
      else
        some ({ b with cursor := next_ptr }, next_ptr)

/-- `BumpBlock::inner_alloc(alloc_size)` (bumpblock.rs lines 61-87):
`ptr.checked_sub(alloc_size)? & ALLOC_ALIGN_MASK`, recursing into the next
hole when the bump would cross `limit`. -/
def BumpBlock.inner_alloc (b : BumpBlock) (alloc_size : Nat) :
    Option (BumpBlock × Nat) :=
  BumpBlock.innerAllocGo (LINE_COUNT + 1) b alloc_size

/-! ## Size classes and the allocation API (stickyimmix/src/allocator.rs) -/

/-- `SizeClass` (allocator.rs lines 49-55); named `SizeCls` here. -/
inductive SizeCls where
  | Small : SizeCls
  | Medium : SizeCls
  | Large : SizeCls
deriving DecidableEq

/-- Allocation failures.  `badRequest` and `oom` are `AllocError::BadRequest`
and `AllocError::OOM` (allocator.rs lines 9-16); `panicked` marks the paths
on which the source panics (`expect`, `assert!`), which have no `AllocError`
value. -/
inductive AllocFailure where
  | badRequest : AllocFailure
  | oom : AllocFailure
  | panicked : AllocFailure
deriving DecidableEq

/-- `SizeClass::get_for_size(object_size)` (allocator.rs lines 58-65): the
range match `SMALL_OBJECT_MIN..=SMALL_OBJECT_MAX` and so on, in order. -/
def get_for_size (object_size : Nat) : Except AllocFailure SizeCls :=
  if SMALL_OBJECT_MIN ≤ object_size ∧ object_size ≤ SMALL_OBJECT_MAX then
    Except.ok SizeCls.Small
  else if MEDIUM_OBJECT_MIN ≤ object_size ∧ object_size ≤ MEDIUM_OBJECT_MAX then
    Except.ok SizeCls.Medium
  else if LARGE_OBJECT_MIN ≤ object_size ∧ object_size ≤ LARGE_OBJECT_MAX then
    Except.ok SizeCls.Large
  else
    Except.error AllocFailure.badRequest

/-- `alloc_size_of(object_size)` (allocator.rs lines 127-130):
`(object_size + (align - 1)) & !(align - 1)` with `align = size_of::<usize>()`. -/
def alloc_size_of (object_size : Nat) : Nat :=
  alignDown (object_size + (WORD_SIZE - 1))

/-! ## StickyImmixHeap (stickyimmix/src/heap.rs)

`BumpBlock::new()` obtains a block from the OS; the model threads an oracle
`os : Nat → Nat` giving the base address of the `i`-th block the OS hands
out, and a counter `nextBlockIdx` in the heap state.  The oracle is total:
OS allocation failure (`AllocError::OOM`) is not modelled, since every claim
below concerns heaps whose OS does not run out of memory. -/

/-- `BlockList` (heap.rs lines 21-25). -/
structure BlockList where
  head : Option BumpBlock
  overflow : Option BumpBlock
  rest : List BumpBlock

/-- `StickyImmixHeap`'s mutable state (heap.rs lines 86-90) plus the count of
OS blocks already obtained. -/
structure Heap where
  blocks : BlockList
  nextBlockIdx : Nat

/-- `StickyImmixHeap::new()` (heap.rs lines 93-99). -/
def Heap.empty : Heap :=
  { blocks := { head := none, overflow := none, rest := [] }, nextBlockIdx := 0 }

/-- `BlockList::overflow_alloc(alloc_size)` (heap.rs lines 40-80).  The
`assert!(alloc_size <= constants::BLOCK_CAPACITY)` and the two `expect`
calls are modelled as the `panicked` outcome. -/
def overflow_alloc (os : Nat → Nat) (h : Heap) (alloc_size : Nat) :
    Except AllocFailure Nat × Heap :=
  if alloc_size > BLOCK_CAPACITY then (Except.error AllocFailure.panicked, h)
  else
    match h.blocks.overflow with
    | some ovf =>
      match ovf.inner_alloc alloc_size with
      | some (ovf2, space) =>
        (Except.ok space,
          { h with blocks := { h.blocks with overflow := some ovf2 } })
      | none =>
        let fresh := BumpBlock.new (os h.nextBlockIdx)
        match fresh.inner_alloc alloc_size with
        | some (fresh2, space) =>
          (Except.ok space,
            { blocks := { head := h.blocks.head, overflow := some fresh2,
                          rest := h.blocks.rest ++ [ovf] },
              nextBlockIdx := h.nextBlockIdx + 1 })
        | none => (Except.error AllocFailure.panicked, h)
    | none =>
      let fresh := BumpBlock.new (os h.nextBlockIdx)
      match fresh.inner_alloc alloc_size with
      | some (fresh2, space) =>
        (Except.ok space,
          { blocks := { head := h.blocks.head, overflow := some fresh2,
                        rest := h.blocks.rest },
            nextBlockIdx := h.nextBlockIdx + 1 })
      | none => (Except.error AllocFailure.panicked, h)

/-- `StickyImmixHeap::find_space(alloc_size, size_class)` (heap.rs lines
104-158): `Large` is rejected; a medium request that does not fit the head's
current hole is routed to `overflow_alloc`; otherwise the head block is
tried and, failing that, retired to `rest` and replaced by a fresh block. -/
def find_space (os : Nat → Nat) (h : Heap) (alloc_size : Nat)
    (size_cls : SizeCls) : Except AllocFailure Nat × Heap :=
  if size_cls = SizeCls.Large then (Except.error AllocFailure.badRequest, h)
  else
    match h.blocks.head with
    | some head =>
      if size_cls = SizeCls.Medium ∧ alloc_size > head.current_hole_size then
        overflow_alloc os h alloc_size
      else
        match head.inner_alloc alloc_size with
        | some (head2, space) =>
          (Except.ok space,
            { h with blocks := { h.blocks with head := some head2 } })
        | none =>
          let fresh := BumpBlock.new (os h.nextBlockIdx)
          match fresh.inner_alloc alloc_size with
          | some (fresh2, space) =>
            (Except.ok space,
              { blocks := { head := some fresh2, overflow := h.blocks.overflow,
                            rest := h.blocks.rest ++ [head] },
                nextBlockIdx := h.nextBlockIdx + 1 })
          | none => (Except.error AllocFailure.panicked, h)
    | none =>
      let fresh := BumpBlock.new (os h.nextBlockIdx)
      match fresh.inner_alloc alloc_size with
      | some (fresh2, space) =>
        (Except.ok space,
          { blocks := { head := some fresh2, overflow := h.blocks.overflow,
                        rest := h.blocks.rest },
            nextBlockIdx := h.nextBlockIdx + 1 })
      | none => (Except.error AllocFailure.panicked, h)

/-- `StickyImmixHeap::alloc::<T>(object)` (heap.rs lines 167-199),
abstracted over `size_of::<Header>()` and `size_of::<T>()`: compute the
word-rounded total size and its class, find space, write the header at the
found address and the object at `space + header_size`, and return the
object address. -/
def heapAlloc (os : Nat → Nat) (headerSize : Nat) (h : Heap)
    (objectSize : Nat) : Except AllocFailure Nat × Heap :=
  let total_size := headerSize + objectSize
  let alloc_size := alloc_size_of total_size
  match get_for_size alloc_size with
  | Except.error e => (Except.error e, h)
  | Except.ok size_cls =>
    match find_space os h alloc_size size_cls with
    | (Except.ok space, h2) => (Except.ok (space + headerSize), h2)
    | (Except.error e, h2) => (Except.error e, h2)

/-! ## Header and object address recovery (stickyimmix/src/heap.rs)

`get_header` / `get_object` (heap.rs lines 244-254) step one `Header` back
or forward from a pointer: `object.cast::<Header>().offset(-1)` and
`header.offset(1)`.  They are modelled over an explicit header size. -/

/-- `StickyImmixHeap::get_header(object)` (heap.rs lines 244-247):
the address `headerSize` bytes below the object. -/
def get_header (headerSize object : Nat) : Nat := object - headerSize

/-- `StickyImmixHeap::get_object(header)` (heap.rs lines 251-253):
the address `headerSize` bytes above the header. -/
def get_object (headerSize header : Nat) : Nat := header + headerSize

/-- `size_of::<ObjectHeader>()` (interpreter/src/headers.rs lines 54-59):
fields `Mark` (`repr(u8)`), `SizeClass` (`repr(u8)`), `TypeList`
(`repr(u16)`), `u32`, packing into 8 bytes. -/
def OBJECT_HEADER_SIZE : Nat := 8

/-! ## Pointer tagging (interpreter/src/pointerops.rs) -/

/-- `TAG_MASK = 0x3` (pointerops.rs line 17). -/
def TAG_MASK : Nat := 3

/-- `TAG_NUMBER = 0x0` (pointerops.rs line 18). -/
def TAG_NUMBER : Nat := 0

/-- `TAG_SYMBOL = 0x1` (pointerops.rs line 19). -/
def TAG_SYMBOL : Nat := 1

/-- `TAG_PAIR = 0x2` (pointerops.rs line 20). -/
def TAG_PAIR : Nat := 2

/-- `TAG_OBJECT = 0x3` (pointerops.rs line 21). -/
def TAG_OBJECT : Nat := 3

/-- `PTR_MASK = !0x3` (pointerops.rs line 22), as the 64-bit word
`2^64 - 4`. -/
def PTR_MASK : Nat := USIZE_MOD - 4

/-- `get_tag(tagged_word)` (pointerops.rs lines 26-28). -/
def get_tag (tagged_word : Nat) : Nat := tagged_word &&& TAG_MASK

/-- `RawPtr::tag(self, tag)` (pointerops.rs lines 37-39):
`self.as_word() | tag`. -/
def tagPtr (w tag : Nat) : Nat := w ||| tag

/-- `RawPtr::untag(from)` (pointerops.rs lines 41-43):
`from as usize & PTR_MASK`. -/
def untagPtr (w : Nat) : Nat := w &&& PTR_MASK

/-! ## TypeList, FatPtr and TaggedPtr (interpreter/src/headers.rs,
interpreter/src/taggedptr.rs)

A `RawPtr<T>` is its address word.  The runtime type named `Partial` is
spelled `partialFn` here; `List` is `list`. -/

/-- `TypeList` (headers.rs lines 27-46). -/
inductive TypeList where
  | arrayBackingBytes : TypeList
  | arrayOpcode : TypeList
  | arrayU8 : TypeList
  | arrayU16 : TypeList
  | arrayU32 : TypeList
  | byteCode : TypeList
  | callFrameList : TypeList
  | dict : TypeList
  | function : TypeList
  | instructionStream : TypeList
  | list : TypeList
  | numberObject : TypeList
  | pair : TypeList
  | partialFn : TypeList
  | symbol : TypeList
  | text : TypeList
  | thread : TypeList
  | upvalue : TypeList
deriving DecidableEq

/-- `FatPtr` (taggedptr.rs lines 105-120). -/
inductive FatPtr where
  | arrayU8 : Nat → FatPtr
  | arrayU16 : Nat → FatPtr
  | arrayU32 : Nat → FatPtr
  | dict : Nat → FatPtr
  | function : Nat → FatPtr
  | list : Nat → FatPtr
  | nil : FatPtr
  | number : Int → FatPtr
  | numberObject : Nat → FatPtr
  | pair : Nat → FatPtr
  | partialFn : Nat → FatPtr
  | symbol : Nat → FatPtr
  | text : Nat → FatPtr
  | upvalue : Nat → FatPtr
deriving DecidableEq

/-- `impl PartialEq for FatPtr` (taggedptr.rs lines 206-219): `Nil`, `Pair`,
`Symbol`, `Number` and `NumberObject` compare by contents; everything else
falls to the `_ => false` arm. -/
def FatPtr.beq : FatPtr → FatPtr → Bool
  | FatPtr.nil, FatPtr.nil => true
  | FatPtr.pair p, FatPtr.pair q => p == q
  | FatPtr.symbol p, FatPtr.symbol q => p == q
  | FatPtr.number i, FatPtr.number j => i == j
  | FatPtr.numberObject p, FatPtr.numberObject q => p == q
  | _, _ => false

/-- Reinterpret an `isize` as a `usize` (Rust `value as usize`): the value
modulo `2^64`, as a natural number. -/
def usizeOfIsize (v : Int) : Nat := (v.emod (USIZE_MOD : Int)).toNat

/-- Reinterpret a `usize` word as an `isize` (two's complement). -/
def isizeOfUsize (w : Nat) : Int :=
  if w < 2 ^ 63 then (w : Int) else (w : Int) - (USIZE_MOD : Int)

/-- Arithmetic shift right on `isize`: floor division by `2^n`. -/
def asr (i : Int) (n : Nat) : Int := Int.fdiv i (2 ^ n)

/-- `TaggedPtr::nil()` (taggedptr.rs lines 236-238): the zero word. -/
def TaggedPtr.nil : Nat := 0

/-- `TaggedPtr::number(value)` (taggedptr.rs lines 274-278):
`((value as usize) << 2) | TAG_NUMBER`, the shift wrapping on `usize`. -/
def TaggedPtr.number (value : Int) : Nat :=
  ((usizeOfIsize value <<< 2) % USIZE_MOD) ||| TAG_NUMBER

/-- `TaggedPtr::symbol(ptr)` (taggedptr.rs lines 264-268). -/
def TaggedPtr.symbol (p : Nat) : Nat := tagPtr p TAG_SYMBOL

/-- `TaggedPtr::pair(ptr)` (taggedptr.rs lines 255-259). -/
def TaggedPtr.pair (p : Nat) : Nat := tagPtr p TAG_PAIR

/-- `TaggedPtr::object(ptr)` (taggedptr.rs lines 247-251). -/
def TaggedPtr.object (p : Nat) : Nat := tagPtr p TAG_OBJECT

/-- `impl From<FatPtr> for TaggedPtr` (taggedptr.rs lines 315-335). -/
def fatPtrToTagged : FatPtr → Nat
  | FatPtr.arrayU8 raw => TaggedPtr.object raw
  | FatPtr.arrayU16 raw => TaggedPtr.object raw
  | FatPtr.arrayU32 raw => TaggedPtr.object raw
  | FatPtr.dict raw => TaggedPtr.object raw
  | FatPtr.function raw => TaggedPtr.object raw
  | FatPtr.list raw => TaggedPtr.object raw
  | FatPtr.nil => TaggedPtr.nil
  | FatPtr.number value => TaggedPtr.number value
  | FatPtr.numberObject raw => TaggedPtr.object raw
  | FatPtr.pair raw => TaggedPtr.pair raw
  | FatPtr.partialFn raw => TaggedPtr.object raw
  | FatPtr.text raw => TaggedPtr.object raw
  | FatPtr.symbol raw => TaggedPtr.symbol raw
  | FatPtr.upvalue raw => TaggedPtr.object raw

/-- `ObjectHeader::get_object_fatptr()` (headers.rs lines 68-92), reading
the header's `type_id` through a memory map `mem` from header addresses to
the `TypeList` value stored there (`none` if no header lives at the
address).  The `_ => panic!` arm for type ids with no `FatPtr` variant is
the `none` outcome. -/
def ObjectHeader.get_object_fatptr (mem : Nat → Option TypeList)
    (hdrAddr : Nat) : Option FatPtr :=
  let object_addr := get_object OBJECT_HEADER_SIZE hdrAddr
  match mem hdrAddr with
  | some TypeList.arrayU8 => some (FatPtr.arrayU8 (untagPtr object_addr))
  | some TypeList.arrayU16 => some (FatPtr.arrayU16 (untagPtr object_addr))
  | some TypeList.arrayU32 => some (FatPtr.arrayU32 (untagPtr object_addr))
  | some TypeList.dict => some (FatPtr.dict (untagPtr object_addr))
  | some TypeList.function => some (FatPtr.function (untagPtr object_addr))
  | some TypeList.list => some (FatPtr.list (untagPtr object_addr))
  | some TypeList.numberObject =>
    some (FatPtr.numberObject (untagPtr object_addr))
  | some TypeList.pair => some (FatPtr.pair (untagPtr object_addr))
  | some TypeList.partialFn => some (FatPtr.partialFn (untagPtr object_addr))
  | some TypeList.symbol => some (FatPtr.symbol (untagPtr object_addr))
  | some TypeList.text => some (FatPtr.text (untagPtr object_addr))
  | some TypeList.upvalue => some (FatPtr.upvalue (untagPtr object_addr))
  | some _ => none
  | none => none

/-- `TaggedPtr::into_fat_ptr()` (taggedptr.rs lines 289-311): zero word is
`Nil`; otherwise dispatch on the low 2 bits; tag 3 reads the object header
`OBJECT_HEADER_SIZE` bytes below the untagged pointer.  The
`panic!("Invalid TaggedPtr type tag!")` arm is unreachable for a 2-bit tag
and is the final `none`. -/
def TaggedPtr.into_fat_ptr (mem : Nat → Option TypeList) (w : Nat) :
    Option FatPtr :=
  if w = 0 then some FatPtr.nil
  else if get_tag w = TAG_NUMBER then
    some (FatPtr.number (asr (isizeOfUsize w) 2))
  else if get_tag w = TAG_SYMBOL then some (FatPtr.symbol (untagPtr w))
  else if get_tag w = TAG_PAIR then some (FatPtr.pair (untagPtr w))
  else if get_tag w = TAG_OBJECT then
    let untyped_object_ptr := untagPtr w
    let header_ptr := get_header OBJECT_HEADER_SIZE untyped_object_ptr
    ObjectHeader.get_object_fatptr mem header_ptr
  else none

/-! ## Arena (interpreter/src/arena.rs) -/

/-- `size_of::<ArenaHeader>()`: `ArenaHeader {}` (arena.rs line 14) is a
field-less struct of size zero. -/
def ARENA_HEADER_SIZE : Nat := 0

/-- `Arena::alloc(object)` (arena.rs lines 74-80): delegate to the inner
`StickyImmixHeap<ArenaHeader>`. -/
def Arena.alloc (os : Nat → Nat) (h : Heap) (objectSize : Nat) :
    Except AllocFailure Nat × Heap :=
  heapAlloc os ARENA_HEADER_SIZE h objectSize

/-- `Arena::alloc_array` (arena.rs lines 82-84): `unimplemented!()`, which
panics unconditionally; modelled as `none` for every input. -/
def Arena.alloc_array (_size_bytes : Nat) : Option Nat := none

/-- `Arena::get_header` (arena.rs lines 86-88): `unimplemented!()`. -/
def Arena.get_header (_object : Nat) : Option Nat := none

/-- `Arena::get_object` (arena.rs lines 90-92): `unimplemented!()`. -/
def Arena.get_object (_header : Nat) : Option Nat := none

/-! ## SymbolMap (interpreter/src/symbolmap.rs) -/

/-- `size_of::<Symbol>()` (interpreter/src/symbol.rs lines 16-19): a
`*const u8` plus a `usize`, 16 bytes. -/
def SYMBOL_SIZE : Nat := 16

/-- `SymbolMap` (symbolmap.rs lines 18-21): the `HashMap<String,
RawPtr<Symbol>>` is modelled as an association list (keys are inserted only
when absent, so each key occurs at most once), the `Arena` as its heap
state. -/
structure SymbolMap where
  map : List (String × Nat)
  arena : Heap

/-- `SymbolMap::new()` (symbolmap.rs lines 25-30). -/
def SymbolMap.new : SymbolMap := { map := [], arena := Heap.empty }

/-- `HashMap::get(name)` on the association-list model. -/
def assocGet : List (String × Nat) → String → Option Nat
  | [], _ => none
  | (k, v) :: rest, name => if k = name then some v else assocGet rest name

/-- `SymbolMap::lookup(name)` (symbolmap.rs lines 32-47): return the mapped
pointer if present, otherwise allocate a `Symbol` in the arena, insert, and
return the new pointer.  The `.unwrap()` on the arena allocation is the
`none` outcome. -/
def SymbolMap.lookup (os : Nat → Nat) (sm : SymbolMap) (name : String) :
    Option (Nat × SymbolMap) :=
  match assocGet sm.map name with
  | some ptr => some (ptr, sm)
  | none =>
    match Arena.alloc os sm.arena SYMBOL_SIZE with
    | (Except.ok ptr, arena2) =>
      some (ptr, { map := (name, ptr) :: sm.map, arena := arena2 })
    | (Except.error _, _) => none

/-- The bump-block invariant `limit <= cursor` within the block's object
area (spec section 3, BumpBlock). -/
def BumpBlock.Valid (b : BumpBlock) : Prop :=
  b.base ≤ b.limit ∧ b.limit ≤ b.cursor ∧ b.cursor ≤ b.base + BLOCK_CAPACITY


/-! ## Specification predicates and concrete instances for the theorems -/

/-- An OS oracle that hands out disjoint, `BLOCK_SIZE`-aligned,
`BLOCK_SIZE`-sized blocks, as `posix_memalign` does for live allocations. -/
def osAligned : Nat → Nat := fun i => (i + 1) * BLOCK_SIZE

/-- The line-mark set `{0, 1, 2, 4, 10}` of spec scenario S4 and of the
source's `test_find_next_hole` (blockmeta.rs lines 113-134). -/
def marksS4 : Nat → Bool := fun n =>
  n == 0 || n == 1 || n == 2 || n == 4 || n == 10

/-- A model system allocator obeying `MemalignContract`: it answers a valid
request with the alignment value itself (which is nonzero and
self-aligned), and anything else with `EINVAL`. -/
def memalignModel : Nat → Nat → MemalignResult := fun align _ =>
  if WORD_SIZE ≤ align ∧ align &&& (align - 1) = 0 then MemalignResult.ok align
  else MemalignResult.einval

/-- A head block with an exhausted hole (`cursor = limit`), for
exercising the medium-object overflow routing. -/
def fullHead : BumpBlock :=
  { base := 32768, cursor := 32768, limit := 32768, lineMark := fun _ => false }

/-- A heap whose head block is `fullHead` and whose overflow slot is
empty. -/
def heapWithFullHead : Heap :=
  { blocks := { head := some fullHead, overflow := none, rest := [] },
    nextBlockIdx := 1 }

/-- A header memory with no headers at all (enough to decode any word whose
tag does not require a header read). -/
def noHeaders : Nat → Option TypeList := fun _ => none

/-- The conditions under which a `FatPtr` can survive the trip through a
tagged word: inline numbers must be nonzero (the zero word is the nil
sentinel) and fit in 62 bits; pointers must be 4-byte aligned `usize`
values (invariant 3 of the spec guarantees word alignment); header-backed
variants additionally need the object header below the payload to carry
the matching `TypeList` tag. -/
def FatPtrWellFormed (mem : Nat → Option TypeList) : FatPtr → Prop
  | FatPtr.nil => True
  | FatPtr.number v => v ≠ 0 ∧ -(2 ^ 61) ≤ v ∧ v < 2 ^ 61
  | FatPtr.symbol p => p % 4 = 0 ∧ p < USIZE_MOD
  | FatPtr.pair p => p % 4 = 0 ∧ p < USIZE_MOD
  | FatPtr.arrayU8 p => p % 4 = 0 ∧ p < USIZE_MOD ∧ OBJECT_HEADER_SIZE ≤ p ∧
      mem (p - OBJECT_HEADER_SIZE) = some TypeList.arrayU8
  | FatPtr.arrayU16 p => p % 4 = 0 ∧ p < USIZE_MOD ∧ OBJECT_HEADER_SIZE ≤ p ∧
      mem (p - OBJECT_HEADER_SIZE) = some TypeList.arrayU16
  | FatPtr.arrayU32 p => p % 4 = 0 ∧ p < USIZE_MOD ∧ OBJECT_HEADER_SIZE ≤ p ∧
      mem (p - OBJECT_HEADER_SIZE) = some TypeList.arrayU32
  | FatPtr.dict p => p % 4 = 0 ∧ p < USIZE_MOD ∧ OBJECT_HEADER_SIZE ≤ p ∧
      mem (p - OBJECT_HEADER_SIZE) = some TypeList.dict
  | FatPtr.function p => p % 4 = 0 ∧ p < USIZE_MOD ∧ OBJECT_HEADER_SIZE ≤ p ∧
      mem (p - OBJECT_HEADER_SIZE) = some TypeList.function
  | FatPtr.list p => p % 4 = 0 ∧ p < USIZE_MOD ∧ OBJECT_HEADER_SIZE ≤ p ∧
      mem (p - OBJECT_HEADER_SIZE) = some TypeList.list
  | FatPtr.numberObject p => p % 4 = 0 ∧ p < USIZE_MOD ∧ OBJECT_HEADER_SIZE ≤ p ∧
      mem (p - OBJECT_HEADER_SIZE) = some TypeList.numberObject
  | FatPtr.partialFn p => p % 4 = 0 ∧ p < USIZE_MOD ∧ OBJECT_HEADER_SIZE ≤ p ∧
      mem (p - OBJECT_HEADER_SIZE) = some TypeList.partialFn
  | FatPtr.text p => p % 4 = 0 ∧ p < USIZE_MOD ∧ OBJECT_HEADER_SIZE ≤ p ∧
      mem (p - OBJECT_HEADER_SIZE) = some TypeList.text
  | FatPtr.upvalue p => p % 4 = 0 ∧ p < USIZE_MOD ∧ OBJECT_HEADER_SIZE ≤ p ∧
      mem (p - OBJECT_HEADER_SIZE) = some TypeList.upvalue

/-- Invariant of every `SymbolMap` state reachable by `lookup` calls
through an OS oracle `os`: the arena head block (if any) is the most
recently obtained block, unmarked and with `limit = base`; interned
pointers are pairwise distinct, each lies in the object area of an
already-obtained block, and pointers in the head block lie at or above the
head cursor. -/
def SymbolMap.Inv (os : Nat → Nat) (sm : SymbolMap) : Prop :=
  (match sm.arena.blocks.head with
   | none => sm.map = []
   | some b =>
     b.limit = b.base ∧ (∀ n, b.lineMark n = false) ∧
     b.cursor % WORD_SIZE = 0 ∧ b.base ≤ b.cursor ∧
     b.cursor ≤ b.base + BLOCK_CAPACITY ∧
     ∃ j, j + 1 = sm.arena.nextBlockIdx ∧ b.base = os j) ∧
  (sm.map.map Prod.snd).Nodup ∧
  (∀ e ∈ sm.map, ∃ i, i < sm.arena.nextBlockIdx ∧ os i ≤ e.2 ∧
    e.2 < os i + BLOCK_CAPACITY ∧
    ∀ b, sm.arena.blocks.head = some b → b.base = os i → b.cursor ≤ e.2)

/-! ## Properties of the hole search and the bump allocator -/

/-- Auxiliary: the bit pattern of `2^n - 2^k` has exactly bits `k..n-1` set. -/
theorem testBit_two_pow_sub_two_pow (n k i : Nat) (hk : k ≤ n) :
    (2 ^ n - 2 ^ k).testBit i = (decide (k ≤ i) && decide (i < n)) := by
  have hpos : (0:Nat) < 2 ^ k := Nat.pos_pow_of_pos k (by norm_num)
  have hrw : 2 ^ n - 2 ^ k = 2 ^ k * (2 ^ (n - k) - 1) + 0 := by
    have h1 : 2 ^ k * 2 ^ (n - k) = 2 ^ n := by
      rw [← pow_add]
      congr 1
      omega
    have h3 : 2 ^ k * (2 ^ (n - k) - 1) = 2 ^ k * 2 ^ (n - k) - 2 ^ k := by
      have := Nat.mul_pred (2 ^ k) (2 ^ (n - k))
      simpa [Nat.pred_eq_sub_one] using this
    omega
  rw [hrw, Nat.testBit_mul_pow_two_add _ hpos]
  by_cases h : i < k
  · rw [if_pos h, Nat.zero_testBit]
    have hki : ¬ (k ≤ i) := by omega
    simp [hki]
  · rw [if_neg h, Nat.testBit_two_pow_sub_one]
    have hle : k ≤ i := by omega
    by_cases hin : i < n
    · have h2 : i - k < n - k := by omega
      simp [hle, hin, h2]
    · have h2 : ¬ (i - k < n - k) := by omega
      simp [hin, h2]

/-- On the `usize` domain, AND with `2^n - 2^k` clears the low `k` bits. -/
theorem and_high_mask_eq (x n k : Nat) (hk : k ≤ n) (hx : x < 2 ^ n) :
    x &&& (2 ^ n - 2 ^ k) = x - x % 2 ^ k := by
  have hpos : (0:Nat) < 2 ^ k := Nat.pos_pow_of_pos k (by norm_num)
  have hrhs : x - x % 2 ^ k = 2 ^ k * (x / 2 ^ k) + 0 := by
    have := Nat.div_add_mod x (2 ^ k)
    omega
  apply Nat.eq_of_testBit_eq
  intro i
  rw [Nat.testBit_and, testBit_two_pow_sub_two_pow n k i hk, hrhs,
    Nat.testBit_mul_pow_two_add _ hpos]
  by_cases hik : i < k
  · rw [if_pos hik, Nat.zero_testBit]
    have hki : ¬ (k ≤ i) := by omega
    simp [hki]
  · rw [if_neg hik]
    have hdiv : x / 2 ^ k = x >>> k := (Nat.shiftRight_eq_div_pow x k).symm
    rw [hdiv, Nat.testBit_shiftRight]
    have hki : k + (i - k) = i := by omega
    rw [hki]
    by_cases hin : i < n
    · have hle : k ≤ i := by omega
      simp [hle, hin]
    · have hxi : x.testBit i = false := by
        apply Nat.testBit_lt_two_pow
        calc x < 2 ^ n := hx
          _ ≤ 2 ^ i := Nat.pow_le_pow_right (by norm_num) (by omega)
      simp [hxi]

/-- `alignDown` agrees with the source's `x & ALLOC_ALIGN_MASK` on `usize`. -/
theorem alignDown_eq_and_mask (x : Nat) (hx : x < USIZE_MOD) :
    alignDown x = x &&& ALLOC_ALIGN_MASK := by
  have h8 : (8:Nat) = 2 ^ 3 := by norm_num
  have := and_high_mask_eq x 64 3 (by norm_num) hx
  simp only [alignDown, ALLOC_ALIGN_MASK, USIZE_MOD, WORD_SIZE]
  rw [show ((2:Nat) ^ 64 - 8) = 2 ^ 64 - 2 ^ 3 by norm_num] at *
  rw [this]
  norm_num

/-- AND with a low mask `2^k - 1` is `mod 2^k` (used for the 2-bit tag). -/
theorem and_low_mask_eq (x k : Nat) : x &&& (2 ^ k - 1) = x % 2 ^ k := by
  apply Nat.eq_of_testBit_eq
  intro i
  rw [Nat.testBit_and, Nat.testBit_two_pow_sub_one, Nat.testBit_mod_two_pow]
  exact Bool.and_comm _ _

/-- Loop invariant of `findHoleLoop`: along every call `(n, count, e)` the
source maintains `end = index + 1 + count`, i.e. `e = n + count`; any hole
it returns is line-aligned, lies at or below `e * LINE_SIZE`, and spans at
least `lines_required` lines. -/
theorem findHoleLoop_spec (marks : Nat → Bool) (req : Nat) :
    ∀ n count e c l, e = n + count →
      findHoleLoop marks req n count e = some (c, l) →
      l ≤ c ∧ c ≤ e * LINE_SIZE ∧ c % LINE_SIZE = 0 ∧ l % LINE_SIZE = 0 ∧
        req * LINE_SIZE ≤ c - l := by
  have hL : LINE_SIZE = 128 := rfl
  intro n
  induction n with
  | zero =>
    intro count e c l _ h
    simp [findHoleLoop] at h
  | succ n ih =>
    intro count e c l he h
    rw [findHoleLoop] at h
    by_cases hm : marks n
    · rw [if_pos hm] at h
      by_cases hc : count > req
      · rw [if_pos hc] at h
        simp only [Option.some.injEq, Prod.mk.injEq] at h
        obtain ⟨hc1, hl1⟩ := h
        subst hc1
        subst hl1
        refine ⟨?_, ?_, ?_, ?_, ?_⟩ <;> rw [hL] <;> omega
      · rw [if_neg hc] at h
        have := ih 0 n c l (by omega) h
        refine ⟨this.1, ?_, this.2.2.1, this.2.2.2.1, this.2.2.2.2⟩
        calc c ≤ n * LINE_SIZE := this.2.1
          _ ≤ e * LINE_SIZE := Nat.mul_le_mul_right _ (by omega)
    · rw [if_neg hm] at h
      by_cases hz : n = 0 ∧ count + 1 ≥ req
      · rw [if_pos hz] at h
        simp only [Option.some.injEq, Prod.mk.injEq] at h
        obtain ⟨hc1, hl1⟩ := h
        subst hc1
        subst hl1
        obtain ⟨hn0, hcnt⟩ := hz
        refine ⟨?_, ?_, ?_, ?_, ?_⟩ <;> rw [hL] <;> omega
      · rw [if_neg hz] at h
        have := ih (count + 1) e c l (by omega) h
        exact this

/-- Any hole returned by `find_next_available_hole(starting_at, alloc_size)`
is line-aligned, lies at or below `starting_at`, and is large enough for
`alloc_size` bytes. -/
theorem find_hole_spec (marks : Nat → Bool) (starting_at alloc_size c l : Nat)
    (h : find_next_available_hole marks starting_at alloc_size = some (c, l)) :
    l ≤ c ∧ c ≤ starting_at ∧ c % LINE_SIZE = 0 ∧ l % LINE_SIZE = 0 ∧
      alloc_size ≤ c - l := by
  have hL : LINE_SIZE = 128 := rfl
  unfold find_next_available_hole at h
  have := findHoleLoop_spec marks ((alloc_size + LINE_SIZE - 1) / LINE_SIZE)
    (starting_at / LINE_SIZE) 0 (starting_at / LINE_SIZE) c l (by omega) h
  obtain ⟨h1, h2, h3, h4, h5⟩ := this
  refine ⟨h1, ?_, h3, h4, ?_⟩
  · calc c ≤ starting_at / LINE_SIZE * LINE_SIZE := h2
      _ ≤ starting_at := Nat.div_mul_le_self _ _
  · have hreq : alloc_size ≤ (alloc_size + LINE_SIZE - 1) / LINE_SIZE * LINE_SIZE := by
      rw [hL]
      omega
    omega

/-- `BumpBlock::new` produces a valid block. -/
theorem BumpBlock.new_valid (base : Nat) : (BumpBlock.new base).Valid := by
  refine ⟨Nat.le_refl _, ?_, Nat.le_refl _⟩
  simp [BumpBlock.new]

/-- What a successful `inner_alloc` guarantees on a valid block: the block
identity is unchanged, the new cursor is the returned address, the address
is word-aligned, lies inside the block, leaves the block valid, and the
allocated span sits at or below the old cursor. -/
theorem innerAllocGo_spec (alloc_size : Nat) :
    ∀ fuel b b2 space, b.Valid →
      BumpBlock.innerAllocGo fuel b alloc_size = some (b2, space) →
      b2.base = b.base ∧ b2.lineMark = b.lineMark ∧ b2.cursor = space ∧
        space % WORD_SIZE = 0 ∧ b.base ≤ space ∧ b2.Valid ∧
        space + alloc_size ≤ b.cursor := by
  intro fuel
  induction fuel with
  | zero =>
    intro b b2 space _ h
    simp [BumpBlock.innerAllocGo] at h
  | succ fuel ih =>
    intro b b2 space hv h
    obtain ⟨hv1, hv2, hv3⟩ := hv
    rw [BumpBlock.innerAllocGo] at h
    by_cases hcs : b.cursor < alloc_size
    · rw [if_pos hcs] at h
      simp at h
    · rw [if_neg hcs] at h
      simp only [] at h
      by_cases hlim : alignDown (b.cursor - alloc_size) < b.limit
      · rw [if_pos hlim] at h
        by_cases hrel : b.limit - b.base > 0
        · rw [if_pos hrel] at h
          cases hfh : find_next_available_hole b.lineMark (b.limit - b.base) alloc_size with
          | none =>
            rw [hfh] at h
            simp at h
          | some cl =>
            obtain ⟨c, l⟩ := cl
            rw [hfh] at h
            obtain ⟨hcl1, hcl2, _, _, hcl5⟩ :=
              find_hole_spec b.lineMark (b.limit - b.base) alloc_size c l hfh
            have hv' : BumpBlock.Valid
                { b with cursor := b.base + c, limit := b.base + l } := by
              show b.base ≤ b.base + l ∧ b.base + l ≤ b.base + c ∧
                b.base + c ≤ b.base + BLOCK_CAPACITY
              refine ⟨by omega, by omega, by omega⟩
            have := ih _ b2 space hv' h
            obtain ⟨g1, g2, g3, g4, g5, g6, g7⟩ := this
            refine ⟨g1, g2, g3, g4, g5, g6, ?_⟩
            simp only [] at g7
            omega
        · rw [if_neg hrel] at h
          simp at h
      · rw [if_neg hlim] at h
        simp only [Option.some.injEq, Prod.mk.injEq] at h
        obtain ⟨hb2, hsp⟩ := h
        subst hb2
        subst hsp
        have had : alignDown (b.cursor - alloc_size) ≤ b.cursor - alloc_size := by
          unfold alignDown
          omega
        have hmod : alignDown (b.cursor - alloc_size) % WORD_SIZE = 0 := by
          unfold alignDown WORD_SIZE
          omega
        refine ⟨rfl, rfl, rfl, hmod, by omega, ⟨by simp; omega, by simp; omega, by simp; omega⟩, by omega⟩

/-- `inner_alloc` version of `innerAllocGo_spec`. -/
theorem inner_alloc_spec (b : BumpBlock) (alloc_size : Nat) (b2 : BumpBlock)
    (space : Nat) (hv : b.Valid)
    (h : b.inner_alloc alloc_size = some (b2, space)) :
    b2.base = b.base ∧ b2.lineMark = b.lineMark ∧ b2.cursor = space ∧
      space % WORD_SIZE = 0 ∧ b.base ≤ space ∧ b2.Valid ∧
      space + alloc_size ≤ b.cursor :=
  innerAllocGo_spec alloc_size (LINE_COUNT + 1) b b2 space hv h

/-- On a word-aligned fresh block, `inner_alloc` succeeds in one bump for
any size between 1 and `BLOCK_CAPACITY`, returning
`base + alignDown (BLOCK_CAPACITY - alloc_size)`. -/
theorem inner_alloc_fresh (base alloc_size : Nat) (hb : base % WORD_SIZE = 0)
    (h1 : 1 ≤ alloc_size) (h2 : alloc_size ≤ BLOCK_CAPACITY) :
    (BumpBlock.new base).inner_alloc alloc_size =
      some ({ BumpBlock.new base with
                cursor := base + alignDown (BLOCK_CAPACITY - alloc_size) },
        base + alignDown (BLOCK_CAPACITY - alloc_size)) := by
  have hcap : BLOCK_CAPACITY = 32512 := rfl
  have hw : WORD_SIZE = 8 := rfl
  unfold BumpBlock.inner_alloc
  rw [show LINE_COUNT + 1 = 256 + 1 from rfl]
  rw [BumpBlock.innerAllocGo]
  have hc : (BumpBlock.new base).cursor = base + BLOCK_CAPACITY := rfl
  have hl : (BumpBlock.new base).limit = base := rfl
  have hb8 : base % 8 = 0 := hb
  have hsplit : alignDown (base + BLOCK_CAPACITY - alloc_size) =
      base + alignDown (BLOCK_CAPACITY - alloc_size) := by
    unfold alignDown WORD_SIZE
    omega
  rw [hc, hl]
  rw [if_neg (by omega : ¬ (base + BLOCK_CAPACITY < alloc_size))]
  simp only []
  rw [hsplit]
  rw [if_neg (by
    omega : ¬ (base + alignDown (BLOCK_CAPACITY - alloc_size) < base))]
  rfl

/-! ## Size classification facts -/

/-- `get_for_size` returns `Small` exactly on `1 ..= LINE_SIZE`. -/
theorem get_for_size_small (a : Nat) :
    get_for_size a = Except.ok SizeCls.Small ↔ 1 ≤ a ∧ a ≤ 128 := by
  have e1 : SMALL_OBJECT_MIN = 1 := rfl
  have e2 : SMALL_OBJECT_MAX = 128 := rfl
  have e3 : MEDIUM_OBJECT_MIN = 129 := rfl
  have e4 : MEDIUM_OBJECT_MAX = 32512 := rfl
  have e5 : LARGE_OBJECT_MIN = 32513 := rfl
  have e6 : LARGE_OBJECT_MAX = 2 ^ 32 - 1 := rfl
  unfold get_for_size
  rw [e1, e2, e3, e4, e5, e6]
  split_ifs with h1 h2 h3 <;> simp <;> omega

/-- `get_for_size` returns `Medium` exactly on
`LINE_SIZE+1 ..= BLOCK_CAPACITY`. -/
theorem get_for_size_medium (a : Nat) :
    get_for_size a = Except.ok SizeCls.Medium ↔ 129 ≤ a ∧ a ≤ 32512 := by
  have e1 : SMALL_OBJECT_MIN = 1 := rfl
  have e2 : SMALL_OBJECT_MAX = 128 := rfl
  have e3 : MEDIUM_OBJECT_MIN = 129 := rfl
  have e4 : MEDIUM_OBJECT_MAX = 32512 := rfl
  have e5 : LARGE_OBJECT_MIN = 32513 := rfl
  have e6 : LARGE_OBJECT_MAX = 2 ^ 32 - 1 := rfl
  unfold get_for_size
  rw [e1, e2, e3, e4, e5, e6]
  split_ifs with h1 h2 h3 <;> simp <;> omega

/-- `get_for_size` returns `Large` exactly on
`BLOCK_CAPACITY+1 ..= u32::MAX`. -/
theorem get_for_size_large (a : Nat) :
    get_for_size a = Except.ok SizeCls.Large ↔ 32513 ≤ a ∧ a ≤ 2 ^ 32 - 1 := by
  have e1 : SMALL_OBJECT_MIN = 1 := rfl
  have e2 : SMALL_OBJECT_MAX = 128 := rfl
  have e3 : MEDIUM_OBJECT_MIN = 129 := rfl
  have e4 : MEDIUM_OBJECT_MAX = 32512 := rfl
  have e5 : LARGE_OBJECT_MIN = 32513 := rfl
  have e6 : LARGE_OBJECT_MAX = 2 ^ 32 - 1 := rfl
  unfold get_for_size
  rw [e1, e2, e3, e4, e5, e6]
  split_ifs with h1 h2 h3 <;> simp <;> omega

/-- `alloc_size_of` bounds: word-rounding stays within 7 bytes above and
never shrinks below the input, and the result is word-aligned. -/
theorem alloc_size_of_bounds (x : Nat) :
    x ≤ alloc_size_of x ∧ alloc_size_of x ≤ x + 7 ∧
      alloc_size_of x % WORD_SIZE = 0 := by
  unfold alloc_size_of alignDown WORD_SIZE
  omega

/-! ## Heap-level allocation facts -/

/-- `find_space` succeeds for every non-`Large` class whose size fits a
block, on any heap state, provided OS blocks are word-aligned.  Failure of
an existing block simply routes to a fresh block, which always fits. -/
theorem find_space_ok (os : Nat → Nat) (hal : ∀ i, os i % WORD_SIZE = 0)
    (h : Heap) (a : Nat) (cls : SizeCls) (hcls : cls ≠ SizeCls.Large)
    (h1 : 1 ≤ a) (h2 : a ≤ BLOCK_CAPACITY) :
    ∃ space h2', find_space os h a cls = (Except.ok space, h2') := by
  unfold find_space
  rw [if_neg (by simp [hcls])]
  cases hh : h.blocks.head with
  | none =>
    simp only [inner_alloc_fresh (os h.nextBlockIdx) a (hal _) h1 h2]
    exact ⟨_, _, rfl⟩
  | some hd =>
    dsimp only
    by_cases hmed : cls = SizeCls.Medium ∧ a > hd.current_hole_size
    · rw [if_pos hmed]
      unfold overflow_alloc
      rw [if_neg (by omega : ¬ (a > BLOCK_CAPACITY))]
      cases ho : h.blocks.overflow with
      | none =>
        dsimp only
        simp only [inner_alloc_fresh (os h.nextBlockIdx) a (hal _) h1 h2]
        exact ⟨_, _, rfl⟩
      | some ovf =>
        dsimp only
        cases hov : ovf.inner_alloc a with
        | some res =>
          obtain ⟨ovf2, space⟩ := res
          exact ⟨_, _, rfl⟩
        | none =>
          simp only [inner_alloc_fresh (os h.nextBlockIdx) a (hal _) h1 h2]
          exact ⟨_, _, rfl⟩
    · rw [if_neg hmed]
      cases hha : hd.inner_alloc a with
      | some res =>
        obtain ⟨hd2, space⟩ := res
        exact ⟨_, _, rfl⟩
      | none =>
        simp only [inner_alloc_fresh (os h.nextBlockIdx) a (hal _) h1 h2]
        exact ⟨_, _, rfl⟩

/-- `heapAlloc` succeeds whenever the word-rounded total size fits a block. -/
theorem heapAlloc_supported_ok (os : Nat → Nat)
    (hal : ∀ i, os i % WORD_SIZE = 0) (h : Heap) (headerSize objectSize : Nat)
    (hpos : 1 ≤ headerSize + objectSize)
    (hcap : alloc_size_of (headerSize + objectSize) ≤ BLOCK_CAPACITY) :
    ∃ p h2, heapAlloc os headerSize h objectSize = (Except.ok p, h2) := by
  have hcap32512 : BLOCK_CAPACITY = 32512 := rfl
  obtain ⟨hb1, _, _⟩ := alloc_size_of_bounds (headerSize + objectSize)
  have h1 : 1 ≤ alloc_size_of (headerSize + objectSize) := by omega
  unfold heapAlloc
  simp only []
  have hcls : ∃ cls, get_for_size (alloc_size_of (headerSize + objectSize)) =
      Except.ok cls ∧ cls ≠ SizeCls.Large := by
    by_cases hsm : alloc_size_of (headerSize + objectSize) ≤ 128
    · exact ⟨SizeCls.Small, (get_for_size_small _).2 (by omega), by simp⟩
    · exact ⟨SizeCls.Medium, (get_for_size_medium _).2 (by omega), by simp⟩
  obtain ⟨cls, hclseq, hclsne⟩ := hcls
  rw [hclseq]
  dsimp only
  obtain ⟨space, h2', hfs⟩ :=
    find_space_ok os hal h (alloc_size_of (headerSize + objectSize)) cls
      hclsne h1 hcap
  rw [hfs]
  exact ⟨_, _, rfl⟩

/-- `heapAlloc` never reaches a panicking path (`expect` / `assert!`) when
OS blocks are word-aligned: every failure is a clean `BadRequest`. -/
theorem heapAlloc_no_panic (os : Nat → Nat)
    (hal : ∀ i, os i % WORD_SIZE = 0) (h : Heap) (headerSize objectSize : Nat) :
    (heapAlloc os headerSize h objectSize).1 ≠
      Except.error AllocFailure.panicked := by
  by_cases hpos : 1 ≤ headerSize + objectSize
  · by_cases hcap : alloc_size_of (headerSize + objectSize) ≤ BLOCK_CAPACITY
    · obtain ⟨p, h2, heq⟩ :=
        heapAlloc_supported_ok os hal h headerSize objectSize hpos hcap
      rw [heq]
      simp
    · unfold heapAlloc
      simp only []
      cases hg : get_for_size (alloc_size_of (headerSize + objectSize)) with
      | error e =>
        dsimp only
        have he : e = AllocFailure.badRequest := by
          unfold get_for_size at hg
          split_ifs at hg
          simp_all
        subst he
        simp
      | ok cls =>
        have hlarge : cls = SizeCls.Large := by
          cases cls with
          | Small =>
            have := (get_for_size_small _).1 hg
            have hc : BLOCK_CAPACITY = 32512 := rfl
            omega
          | Medium =>
            have := (get_for_size_medium _).1 hg
            have hc : BLOCK_CAPACITY = 32512 := rfl
            omega
          | Large => rfl
        subst hlarge
        dsimp only
        unfold find_space
        rw [if_pos rfl]
        simp
  · have hz : headerSize + objectSize = 0 := by omega
    have ha : alloc_size_of (headerSize + objectSize) = 0 := by
      rw [hz]
      rfl
    unfold heapAlloc
    simp only []
    rw [ha]
    have : get_for_size 0 = Except.error AllocFailure.badRequest := rfl
    rw [this]
    simp

/-! ## Claim theorems -/

/-- C8: for every managed object payload pointer `p` (which sits
`sizeof(Header)` bytes above its header) and every header pointer `h`,
`get_object (get_header p) = p` and `get_header (get_object h) = h`, with
`get_header p = p - sizeof(Header)` and `get_object h = h + sizeof(Header)`. -/
theorem C8_header_object_roundtrip (headerSize p hdr : Nat)
    (hp : headerSize ≤ p) :
    get_header headerSize p = p - headerSize ∧
    get_object headerSize hdr = hdr + headerSize ∧
    get_object headerSize (get_header headerSize p) = p ∧
    get_header headerSize (get_object headerSize hdr) = hdr := by
  unfold get_header get_object
  omega

/-- C8 witness: the round trips at `sizeof(ObjectHeader) = 8`, payload
address 64, header address 100. -/
theorem C8_header_object_roundtrip_witness :
    get_header OBJECT_HEADER_SIZE 64 = 64 - OBJECT_HEADER_SIZE ∧
    get_object OBJECT_HEADER_SIZE 100 = 100 + OBJECT_HEADER_SIZE ∧
    get_object OBJECT_HEADER_SIZE (get_header OBJECT_HEADER_SIZE 64) = 64 ∧
    get_header OBJECT_HEADER_SIZE (get_object OBJECT_HEADER_SIZE 100) = 100 :=
  C8_header_object_roundtrip OBJECT_HEADER_SIZE 64 100 (by decide)

/-- C10: `FatPtr` equality is not reflexive: it returns `true` exactly for
`Nil = Nil` and for matching `Pair`, `Symbol`, `Number`, `NumberObject`
variants with equal contents, and every other variant compares `false`
even against an identical copy of itself. -/
theorem C10_fatptr_eq_not_reflexive (a b : FatPtr) (p : Nat) (n : Int) :
    (FatPtr.beq a b = true ↔
      ((a = FatPtr.nil ∧ b = FatPtr.nil) ∨
       (∃ q, a = FatPtr.pair q ∧ b = FatPtr.pair q) ∨
       (∃ q, a = FatPtr.symbol q ∧ b = FatPtr.symbol q) ∨
       (∃ m, a = FatPtr.number m ∧ b = FatPtr.number m) ∨
       (∃ q, a = FatPtr.numberObject q ∧ b = FatPtr.numberObject q))) ∧
    FatPtr.beq (FatPtr.nil) (FatPtr.nil) = true ∧
    FatPtr.beq (FatPtr.pair p) (FatPtr.pair p) = true ∧
    FatPtr.beq (FatPtr.symbol p) (FatPtr.symbol p) = true ∧
    FatPtr.beq (FatPtr.number n) (FatPtr.number n) = true ∧
    FatPtr.beq (FatPtr.numberObject p) (FatPtr.numberObject p) = true ∧
    FatPtr.beq (FatPtr.arrayU8 p) (FatPtr.arrayU8 p) = false ∧
    FatPtr.beq (FatPtr.arrayU16 p) (FatPtr.arrayU16 p) = false ∧
    FatPtr.beq (FatPtr.arrayU32 p) (FatPtr.arrayU32 p) = false ∧
    FatPtr.beq (FatPtr.dict p) (FatPtr.dict p) = false ∧
    FatPtr.beq (FatPtr.function p) (FatPtr.function p) = false ∧
    FatPtr.beq (FatPtr.list p) (FatPtr.list p) = false ∧
    FatPtr.beq (FatPtr.partialFn p) (FatPtr.partialFn p) = false ∧
    FatPtr.beq (FatPtr.text p) (FatPtr.text p) = false ∧
    FatPtr.beq (FatPtr.upvalue p) (FatPtr.upvalue p) = false := by
  refine ⟨?_, ?_, ?_, ?_, ?_, ?_, ?_, ?_, ?_, ?_, ?_, ?_, ?_, ?_, ?_⟩
  · cases a <;> cases b <;> simp [FatPtr.beq]
    all_goals exact eq_comm
  all_goals simp [FatPtr.beq]

set_option maxRecDepth 4000 in
/-- C6 counterexample: with lines {0,1,2,4,10} marked, the hole search
started at byte offset `BLOCK_CAPACITY` for 128 bytes does not return the
hole `(10 * LINE_SIZE, 6 * LINE_SIZE)` claimed; it finds the much larger
hole above line 10 first, whose low edge is conservatively line 12. -/
theorem C6_hole_search_from_capacity :
    find_next_available_hole marksS4 BLOCK_CAPACITY 128 =
      some (32512, 1536) ∧
    find_next_available_hole marksS4 BLOCK_CAPACITY 128 ≠
      some (10 * LINE_SIZE, 6 * LINE_SIZE) := by
  exact ⟨by decide, by decide⟩

set_option maxRecDepth 4000 in
/-- C6 amended: on the same marks, the search the repository's own test
performs — starting at byte offset `10 * LINE_SIZE` — returns the hole
with high end `10 * LINE_SIZE` and low end `6 * LINE_SIZE` (line 5
being conservatively marked). -/
theorem C6_hole_search_from_line_ten :
    find_next_available_hole marksS4 (10 * LINE_SIZE) 128 =
      some (10 * LINE_SIZE, 6 * LINE_SIZE) := by
  decide

set_option maxRecDepth 4000 in
/-- C3: the very first allocation on a fresh heap (a `usize`-sized object
with the interpreter's 8-byte `ObjectHeader`) returns payload address
`os 0 + 32504`, which is word-aligned but *not* 16-byte aligned: with
block base `32768`, the payload address is `65272 ≡ 8 (mod 16)`.  The code
aligns only to `ALLOC_ALIGN_MASK = !(size_of::<usize>() - 1)`, i.e. 8
bytes, contradicting the documented double-word alignment. -/
theorem C3_payload_not_16_aligned :
    (heapAlloc osAligned OBJECT_HEADER_SIZE Heap.empty 8).1 =
      Except.ok 65272 ∧
    65272 % 16 = 8 ∧ 65272 % 8 = 0 := by
  refine ⟨?_, by decide, by decide⟩
  rfl

/-- Block-aligned OS addresses are word-aligned. -/
theorem block_aligned_word_aligned (os : Nat → Nat)
    (hal : ∀ i, os i % BLOCK_SIZE = 0) : ∀ i, os i % WORD_SIZE = 0 := by
  intro i
  have hb : BLOCK_SIZE = 32768 := rfl
  have hw : WORD_SIZE = 8 := rfl
  have h2 := hal i
  rw [hb] at h2
  rw [hw]
  omega

/-- C2: an `alloc` request whose word-aligned total size (header plus
object) exceeds `BLOCK_CAPACITY` — the `Large` size class — returns
`BadRequest`; the heap state is unchanged (in particular no header or
object was written, since writes happen only after `find_space` succeeds);
and an allocation of any supported (block-fitting) size afterwards still
succeeds. -/
theorem C2_large_request_rejected (os : Nat → Nat)
    (hal : ∀ i, os i % BLOCK_SIZE = 0) (h : Heap)
    (headerSize objSize sz2 : Nat)
    (hlarge : BLOCK_CAPACITY < alloc_size_of (headerSize + objSize))
    (hmax : alloc_size_of (headerSize + objSize) ≤ LARGE_OBJECT_MAX)
    (hsz2pos : 1 ≤ headerSize + sz2)
    (hsz2cap : alloc_size_of (headerSize + sz2) ≤ BLOCK_CAPACITY) :
    (heapAlloc os headerSize h objSize).1 =
      Except.error AllocFailure.badRequest ∧
    (heapAlloc os headerSize h objSize).2 = h ∧
    ∃ p h2, heapAlloc os headerSize h sz2 = (Except.ok p, h2) := by
  have hcap : BLOCK_CAPACITY = 32512 := rfl
  have hmaxv : LARGE_OBJECT_MAX = 2 ^ 32 - 1 := rfl
  have hcls : get_for_size (alloc_size_of (headerSize + objSize)) =
      Except.ok SizeCls.Large :=
    (get_for_size_large _).2 (by omega)
  have hfail : heapAlloc os headerSize h objSize =
      (Except.error AllocFailure.badRequest, h) := by
    unfold heapAlloc
    dsimp only
    rw [hcls]
    dsimp only
    unfold find_space
    rw [if_pos rfl]
  refine ⟨by rw [hfail], by rw [hfail], ?_⟩
  exact heapAlloc_supported_ok os (block_aligned_word_aligned os hal) h
    headerSize sz2 hsz2pos hsz2cap

/-- C2 witness: on the empty heap with block-aligned OS blocks, a request
with 8-byte header and 40000-byte object (word-aligned total 40008 >
BLOCK_CAPACITY) fails with `BadRequest` and leaves the heap unchanged,
while an 8-byte object still allocates. -/
theorem C2_large_request_rejected_witness :
    (heapAlloc osAligned 8 Heap.empty 40000).1 =
      Except.error AllocFailure.badRequest ∧
    (heapAlloc osAligned 8 Heap.empty 40000).2 = Heap.empty ∧
    ∃ p h2, heapAlloc osAligned 8 Heap.empty 8 = (Except.ok p, h2) :=
  C2_large_request_rejected osAligned
    (fun i => by unfold osAligned; exact Nat.mul_mod_left _ _)
    Heap.empty 8 40000 8 (by decide) (by decide) (by decide) (by decide)

/-- C9: on the `Arena` type only `alloc` is total — `alloc_array`,
`get_header` and `get_object` hit `unimplemented!()` and panic for every
input (modelled as `none`) — while `alloc` itself, delegating to the inner
`StickyImmixHeap`, never reaches a panicking path on any heap state or
request when OS blocks are block-aligned. -/
theorem C9_arena_interface_mostly_unimplemented (os : Nat → Nat)
    (hal : ∀ i, os i % BLOCK_SIZE = 0) :
    (∀ sz, Arena.alloc_array sz = none) ∧
    (∀ p, Arena.get_header p = none) ∧
    (∀ p, Arena.get_object p = none) ∧
    (∀ h objSize,
      (Arena.alloc os h objSize).1 ≠ Except.error AllocFailure.panicked) := by
  refine ⟨fun _ => rfl, fun _ => rfl, fun _ => rfl, fun h objSize => ?_⟩
  exact heapAlloc_no_panic os (block_aligned_word_aligned os hal) h
    ARENA_HEADER_SIZE objSize

/-- C9 witness: the unimplemented operations panic at concrete inputs and
`alloc` does not panic on the empty heap. -/
theorem C9_arena_interface_witness :
    Arena.alloc_array 128 = none ∧
    Arena.get_header 64 = none ∧
    Arena.get_object 64 = none ∧
    (Arena.alloc osAligned Heap.empty 16).1 ≠
      Except.error AllocFailure.panicked := by
  have hal : ∀ i, osAligned i % BLOCK_SIZE = 0 :=
    fun i => by unfold osAligned; exact Nat.mul_mod_left _ _
  exact ⟨(C9_arena_interface_mostly_unimplemented osAligned hal).1 128,
    (C9_arena_interface_mostly_unimplemented osAligned hal).2.1 64,
    (C9_arena_interface_mostly_unimplemented osAligned hal).2.2.1 64,
    (C9_arena_interface_mostly_unimplemented osAligned hal).2.2.2 Heap.empty 16⟩

/-- A power of two ANDed with its predecessor is zero. -/
theorem two_pow_and_pred (k : Nat) : 2 ^ k &&& (2 ^ k - 1) = 0 := by
  apply Nat.eq_of_testBit_eq
  intro i
  rw [Nat.testBit_and, Nat.testBit_two_pow_sub_one, Nat.zero_testBit]
  by_cases h : k = i
  · subst h
    simp
  · rw [Nat.testBit_two_pow_of_ne h]
    simp

/-- A number in `[2^k, 2^(k+1))` has bit `k` set. -/
theorem testBit_of_bounds (m k : Nat) (h1 : 2 ^ k ≤ m)
    (h2 : m < 2 ^ (k + 1)) : m.testBit k = true := by
  rw [Nat.testBit_to_div_mod]
  have hp : 2 ^ (k + 1) = 2 ^ k * 2 := pow_succ 2 k
  have hdiv : m / 2 ^ k = 1 := Nat.div_eq_of_lt_le (by omega) (by omega)
  rw [hdiv]
  rfl

/-- On positive numbers, the check `n & (n - 1) == 0` recognises exactly
the powers of two. -/
theorem and_pred_eq_zero_iff_pow (n : Nat) (hn : 0 < n) :
    n &&& (n - 1) = 0 ↔ ∃ k, n = 2 ^ k := by
  constructor
  · intro h
    refine ⟨n.log2, ?_⟩
    by_contra hne
    have hle : 2 ^ n.log2 ≤ n := Nat.log2_self_le (by omega)
    have hlt : n < 2 ^ (n.log2 + 1) := Nat.lt_log2_self
    have hgt : 2 ^ n.log2 < n := by omega
    have hb1 : n.testBit n.log2 = true := testBit_of_bounds n n.log2 hle hlt
    have hb2 : (n - 1).testBit n.log2 = true :=
      testBit_of_bounds (n - 1) n.log2 (by omega) (by omega)
    have hand : (n &&& (n - 1)).testBit n.log2 = true := by
      rw [Nat.testBit_and, hb1, hb2]
      rfl
    rw [h, Nat.zero_testBit] at hand
    exact Bool.noConfusion hand
  · rintro ⟨k, rfl⟩
    exact two_pow_and_pred k

/-- The model allocator obeys the `posix_memalign` contract. -/
theorem memalignModel_contract : MemalignContract memalignModel := by
  constructor
  · intro align sz hn
    unfold memalignModel
    rw [if_neg hn]
  · intro align sz addr h
    unfold memalignModel at h
    split_ifs at h with hcond
    · injection h with h2
      subst h2
      have hw : WORD_SIZE = 8 := rfl
      exact ⟨Nat.mod_self _, by omega⟩

/-- C7: under the `posix_memalign` contract, `Block::new(size)` returns
`BadRequest` for every size that is not a positive power of two (zero
included: the wrapping `size - 1` lets zero slip past the repository's own
check, and the platform allocator then rejects alignment 0 with `EINVAL`,
which maps to `BadRequest`); and whenever it succeeds, the returned base
address satisfies `base & (size - 1) == 0`. -/
theorem C7_block_new_validation (memalign : Nat → Nat → MemalignResult)
    (hc : MemalignContract memalign) (size : Nat) :
    (¬ (∃ k, size = 2 ^ k) →
      Block.new memalign size = Except.error BlockError.BadRequest) ∧
    (∀ b, Block.new memalign size = Except.ok b →
      b.ptr &&& (size - 1) = 0) := by
  obtain ⟨hinval, hok⟩ := hc
  constructor
  · intro hnp
    unfold Block.new
    by_cases h0 : size = 0
    · subst h0
      rw [if_neg (by simp [wrappingSubOne])]
      rw [hinval 0 0 (by simp [WORD_SIZE])]
    · rw [if_pos (by
        rw [show wrappingSubOne size = size - 1 by unfold wrappingSubOne; simp [h0]]
        intro hchk
        exact hnp ((and_pred_eq_zero_iff_pow size (by omega)).1 hchk))]
  · intro b hb
    unfold Block.new at hb
    split_ifs at hb with hchk
    cases hm : memalign size size with
    | ok addr =>
      rw [hm] at hb
      injection hb with hb2
      by_cases hvalid : WORD_SIZE ≤ size ∧ size &&& (size - 1) = 0
      · obtain ⟨haddr, _⟩ := hok size size addr hm
        have hw : WORD_SIZE = 8 := rfl
        obtain ⟨k, hk⟩ :=
          (and_pred_eq_zero_iff_pow size (by omega)).1 hvalid.2
        subst hk
        rw [← hb2]
        simp only [Block.mk.injEq] at *
        rw [and_low_mask_eq addr k]
        exact haddr
      · rw [hinval size size hvalid] at hm
        exact MemalignResult.noConfusion hm
    | einval =>
      rw [hm] at hb
      exact Except.noConfusion hb
    | enomem =>
      rw [hm] at hb
      exact Except.noConfusion hb

/-- C7 witness: size 999 (not a power of two) is rejected, and the success
for the block size `2^15 = 32768` hands back a self-aligned base. -/
theorem C7_block_new_validation_witness :
    Block.new memalignModel 999 = Except.error BlockError.BadRequest ∧
    (Block.mk 32768 32768).ptr &&& (32768 - 1) = 0 := by
  constructor
  · exact (C7_block_new_validation memalignModel memalignModel_contract 999).1
      (by
        rintro ⟨k, hk⟩
        cases k with
        | zero => norm_num at hk
        | succ k =>
          rw [pow_succ] at hk
          omega)
  · exact (C7_block_new_validation memalignModel memalignModel_contract 32768).2
      (Block.mk 32768 32768) rfl

/-- OR-ing a 2-bit tag into a 4-byte-aligned word is addition. -/
theorem or_tag_eq_add (p t : Nat) (hp : p % 4 = 0) (ht : t < 4) :
    p ||| t = p + t := by
  apply Nat.eq_of_testBit_eq
  intro i
  have hrw : p + t = 2 ^ 2 * (p / 4) + t := by omega
  rw [Nat.testBit_or, hrw,
    Nat.testBit_mul_pow_two_add _ (show t < 2 ^ 2 by omega)]
  by_cases hi : i < 2
  · have hpb : p.testBit i = false := by
      have h4 := Nat.testBit_mod_two_pow p 2 i
      rw [show p % 2 ^ 2 = 0 from by omega, Nat.zero_testBit] at h4
      have h5 : (decide (i < 2) && p.testBit i) = false := h4.symm
      simpa [hi] using h5
    rw [if_pos hi, hpb]
    simp
  · rw [if_neg hi]
    have htb : t.testBit i = false := by
      apply Nat.testBit_lt_two_pow
      calc t < 4 := ht
        _ = 2 ^ 2 := by norm_num
        _ ≤ 2 ^ i := Nat.pow_le_pow_right (by norm_num) (by omega)
    rw [htb]
    have hshr : p / 4 = p >>> 2 := by
      rw [Nat.shiftRight_eq_div_pow]
    rw [hshr, Nat.testBit_shiftRight, show 2 + (i - 2) = i from by omega]
    simp

/-- Tagging a 4-byte-aligned pointer with a nonzero 2-bit tag gives a
nonzero word whose tag field is the tag and whose untagging recovers the
pointer. -/
theorem tagPtr_facts (p t : Nat) (hp : p % 4 = 0) (h64 : p < USIZE_MOD)
    (ht0 : 0 < t) (ht : t < 4) :
    tagPtr p t ≠ 0 ∧ get_tag (tagPtr p t) = t ∧ untagPtr (tagPtr p t) = p := by
  have h64' : p < 2 ^ 64 := h64
  have hadd : tagPtr p t = p + t := or_tag_eq_add p t hp ht
  have hlt : p + t < 2 ^ 64 := by omega
  refine ⟨by omega, ?_, ?_⟩
  · unfold get_tag TAG_MASK
    rw [hadd, show (3:Nat) = 2 ^ 2 - 1 from rfl, and_low_mask_eq]
    omega
  · unfold untagPtr PTR_MASK
    rw [hadd, show USIZE_MOD - 4 = 2 ^ 64 - 2 ^ 2 from rfl,
      and_high_mask_eq (p + t) 64 2 (by norm_num) hlt]
    omega

/-- Untagging a 4-byte-aligned word is the identity. -/
theorem untag_aligned (p : Nat) (hp : p % 4 = 0) (h64 : p < USIZE_MOD) :
    untagPtr p = p := by
  have h64' : p < 2 ^ 64 := h64
  unfold untagPtr PTR_MASK
  rw [show USIZE_MOD - 4 = 2 ^ 64 - 2 ^ 2 from rfl,
    and_high_mask_eq p 64 2 (by norm_num) h64']
  omega

/-- For nonzero inline values fitting 62 bits, the number encoding
produces a nonzero word with tag `TAG_NUMBER` whose arithmetic right shift
by two recovers the value. -/
theorem taggedPtr_number_spec (v : Int) (h0 : v ≠ 0) (hlo : -(2 ^ 61) ≤ v)
    (hhi : v < 2 ^ 61) :
    TaggedPtr.number v ≠ 0 ∧ get_tag (TaggedPtr.number v) = TAG_NUMBER ∧
      asr (isizeOfUsize (TaggedPtr.number v)) 2 = v := by
  have h61 : (2:Int) ^ 61 = 2305843009213693952 := by norm_num
  have hM : ((USIZE_MOD : Nat) : Int) = 18446744073709551616 := by
    unfold USIZE_MOD
    norm_num
  have hMn : USIZE_MOD = 18446744073709551616 := by norm_num [USIZE_MOD]
  unfold TaggedPtr.number usizeOfIsize isizeOfUsize get_tag asr TAG_NUMBER TAG_MASK
  rw [Nat.or_zero, Nat.shiftLeft_eq, hM, hMn,
    show ((2:Nat) ^ 2) = 4 from rfl,
    show ((2:Nat) ^ 63) = 9223372036854775808 from by norm_num,
    show ((2:Int) ^ 2) = 4 from by norm_num]
  set u := (v.emod (18446744073709551616:Int)).toNat with hudef
  have huval : (u:Int) = v % 18446744073709551616 :=
    Int.toNat_of_nonneg (Int.emod_nonneg v (by norm_num))
  rcases lt_or_gt_of_ne h0 with hneg | hpos
  · -- v < 0
    have hucase : (u:Int) = v + 18446744073709551616 := by omega
    have hub : 16140901064495857664 ≤ u ∧ u < 18446744073709551616 := by omega
    have hw : u * 4 % 18446744073709551616 =
        u * 4 - 3 * 18446744073709551616 := by omega
    rw [hw]
    refine ⟨by omega, ?_, ?_⟩
    · rw [show (3:Nat) = 2 ^ 2 - 1 from rfl, and_low_mask_eq]
      omega
    · rw [if_neg (by omega :
        ¬ (u * 4 - 3 * 18446744073709551616 < 9223372036854775808))]
      have hle : 3 * 18446744073709551616 ≤ u * 4 := by omega
      have hcast : ((u * 4 - 3 * 18446744073709551616 : Nat) : Int) =
          (u:Int) * 4 - 3 * 18446744073709551616 := by
        push_cast [Nat.cast_sub hle]
        ring
      rw [hcast, hucase,
        show (v + 18446744073709551616) * 4 - 3 * 18446744073709551616 -
          18446744073709551616 = v * 4 from by ring]
      exact Int.mul_fdiv_cancel v (by norm_num)
  · -- v > 0
    have hucase : (u:Int) = v := by omega
    have hub : 0 < u ∧ u < 2305843009213693952 := by omega
    have hw : u * 4 % 18446744073709551616 = u * 4 :=
      Nat.mod_eq_of_lt (by omega)
    rw [hw]
    refine ⟨by omega, ?_, ?_⟩
    · rw [show (3:Nat) = 2 ^ 2 - 1 from rfl, and_low_mask_eq]
      omega
    · rw [if_pos (by omega : u * 4 < 9223372036854775808)]
      rw [show ((u * 4 : Nat) : Int) = (u:Int) * 4 from by push_cast; ring,
        hucase]
      exact Int.mul_fdiv_cancel v (by norm_num)

/-- C1 (amended): converting a well-formed `FatPtr` to a `TaggedPtr` and
decoding it back yields the same `FatPtr`: this holds for `Nil`, for
inline numbers that are nonzero and fit 62 bits, and for all pointer
variants with 4-byte-aligned addresses whose headers (for tag-3 variants)
carry the matching type id.  (`Number 0` and out-of-range numbers are the
exceptions; see the counterexample.) -/
theorem C1_fatptr_taggedptr_roundtrip (mem : Nat → Option TypeList)
    (f : FatPtr) (hf : FatPtrWellFormed mem f) :
    TaggedPtr.into_fat_ptr mem (fatPtrToTagged f) = some f := by
  cases f with
  | nil => rfl
  | number v =>
    obtain ⟨h0, hlo, hhi⟩ := hf
    obtain ⟨hne, htag, hval⟩ := taggedPtr_number_spec v h0 hlo hhi
    show TaggedPtr.into_fat_ptr mem (TaggedPtr.number v) =
      some (FatPtr.number v)
    unfold TaggedPtr.into_fat_ptr
    rw [if_neg hne, if_pos htag, hval]
  | symbol p =>
    obtain ⟨hp, h64⟩ := hf
    obtain ⟨hne, htag, huntag⟩ :=
      tagPtr_facts p TAG_SYMBOL hp h64 (by decide) (by decide)
    show TaggedPtr.into_fat_ptr mem (TaggedPtr.symbol p) =
      some (FatPtr.symbol p)
    unfold TaggedPtr.into_fat_ptr TaggedPtr.symbol
    rw [if_neg hne, if_neg (by rw [htag]; decide), if_pos htag, huntag]
  | pair p =>
    obtain ⟨hp, h64⟩ := hf
    obtain ⟨hne, htag, huntag⟩ :=
      tagPtr_facts p TAG_PAIR hp h64 (by decide) (by decide)
    show TaggedPtr.into_fat_ptr mem (TaggedPtr.pair p) =
      some (FatPtr.pair p)
    unfold TaggedPtr.into_fat_ptr TaggedPtr.pair
    rw [if_neg hne, if_neg (by rw [htag]; decide),
      if_neg (by rw [htag]; decide), if_pos htag, huntag]
  | arrayU8 p =>
    obtain ⟨hp, h64, h8, hmem⟩ := hf
    obtain ⟨hne, htag, huntag⟩ :=
      tagPtr_facts p TAG_OBJECT hp h64 (by decide) (by decide)
    show TaggedPtr.into_fat_ptr mem (TaggedPtr.object p) =
      some (FatPtr.arrayU8 p)
    unfold TaggedPtr.into_fat_ptr TaggedPtr.object
    rw [if_neg hne, if_neg (by rw [htag]; decide),
      if_neg (by rw [htag]; decide), if_neg (by rw [htag]; decide),
      if_pos htag]
    dsimp only
    rw [huntag]
    unfold ObjectHeader.get_object_fatptr get_header get_object
    rw [hmem]
    dsimp only
    rw [show p - OBJECT_HEADER_SIZE + OBJECT_HEADER_SIZE = p from by omega]
    rw [untag_aligned p hp h64]
  | arrayU16 p =>
    obtain ⟨hp, h64, h8, hmem⟩ := hf
    obtain ⟨hne, htag, huntag⟩ :=
      tagPtr_facts p TAG_OBJECT hp h64 (by decide) (by decide)
    show TaggedPtr.into_fat_ptr mem (TaggedPtr.object p) =
      some (FatPtr.arrayU16 p)
    unfold TaggedPtr.into_fat_ptr TaggedPtr.object
    rw [if_neg hne, if_neg (by rw [htag]; decide),
      if_neg (by rw [htag]; decide), if_neg (by rw [htag]; decide),
      if_pos htag]
    dsimp only
    rw [huntag]
    unfold ObjectHeader.get_object_fatptr get_header get_object
    rw [hmem]
    dsimp only
    rw [show p - OBJECT_HEADER_SIZE + OBJECT_HEADER_SIZE = p from by omega]
    rw [untag_aligned p hp h64]
  | arrayU32 p =>
    obtain ⟨hp, h64, h8, hmem⟩ := hf
    obtain ⟨hne, htag, huntag⟩ :=
      tagPtr_facts p TAG_OBJECT hp h64 (by decide) (by decide)
    show TaggedPtr.into_fat_ptr mem (TaggedPtr.object p) =
      some (FatPtr.arrayU32 p)
    unfold TaggedPtr.into_fat_ptr TaggedPtr.object
    rw [if_neg hne, if_neg (by rw [htag]; decide),
      if_neg (by rw [htag]; decide), if_neg (by rw [htag]; decide),
      if_pos htag]
    dsimp only
    rw [huntag]
    unfold ObjectHeader.get_object_fatptr get_header get_object
    rw [hmem]
    dsimp only
    rw [show p - OBJECT_HEADER_SIZE + OBJECT_HEADER_SIZE = p from by omega]
    rw [untag_aligned p hp h64]
  | dict p =>
    obtain ⟨hp, h64, h8, hmem⟩ := hf
    obtain ⟨hne, htag, huntag⟩ :=
      tagPtr_facts p TAG_OBJECT hp h64 (by decide) (by decide)
    show TaggedPtr.into_fat_ptr mem (TaggedPtr.object p) =
      some (FatPtr.dict p)
    unfold TaggedPtr.into_fat_ptr TaggedPtr.object
    rw [if_neg hne, if_neg (by rw [htag]; decide),
      if_neg (by rw [htag]; decide), if_neg (by rw [htag]; decide),
      if_pos htag]
    dsimp only
    rw [huntag]
    unfold ObjectHeader.get_object_fatptr get_header get_object
    rw [hmem]
    dsimp only
    rw [show p - OBJECT_HEADER_SIZE + OBJECT_HEADER_SIZE = p from by omega]
    rw [untag_aligned p hp h64]
  | function p =>
    obtain ⟨hp, h64, h8, hmem⟩ := hf
    obtain ⟨hne, htag, huntag⟩ :=
      tagPtr_facts p TAG_OBJECT hp h64 (by decide) (by decide)
    show TaggedPtr.into_fat_ptr mem (TaggedPtr.object p) =
      some (FatPtr.function p)
    unfold TaggedPtr.into_fat_ptr TaggedPtr.object
    rw [if_neg hne, if_neg (by rw [htag]; decide),
      if_neg (by rw [htag]; decide), if_neg (by rw [htag]; decide),
      if_pos htag]
    dsimp only
    rw [huntag]
    unfold ObjectHeader.get_object_fatptr get_header get_object
    rw [hmem]
    dsimp only
    rw [show p - OBJECT_HEADER_SIZE + OBJECT_HEADER_SIZE = p from by omega]
    rw [untag_aligned p hp h64]
  | list p =>
    obtain ⟨hp, h64, h8, hmem⟩ := hf
    obtain ⟨hne, htag, huntag⟩ :=
      tagPtr_facts p TAG_OBJECT hp h64 (by decide) (by decide)
    show TaggedPtr.into_fat_ptr mem (TaggedPtr.object p) =
      some (FatPtr.list p)
    unfold TaggedPtr.into_fat_ptr TaggedPtr.object
    rw [if_neg hne, if_neg (by rw [htag]; decide),
      if_neg (by rw [htag]; decide), if_neg (by rw [htag]; decide),
      if_pos htag]
    dsimp only
    rw [huntag]
    unfold ObjectHeader.get_object_fatptr get_header get_object
    rw [hmem]
    dsimp only
    rw [show p - OBJECT_HEADER_SIZE + OBJECT_HEADER_SIZE = p from by omega]
    rw [untag_aligned p hp h64]
  | numberObject p =>
    obtain ⟨hp, h64, h8, hmem⟩ := hf
    obtain ⟨hne, htag, huntag⟩ :=
      tagPtr_facts p TAG_OBJECT hp h64 (by decide) (by decide)
    show TaggedPtr.into_fat_ptr mem (TaggedPtr.object p) =
      some (FatPtr.numberObject p)
    unfold TaggedPtr.into_fat_ptr TaggedPtr.object
    rw [if_neg hne, if_neg (by rw [htag]; decide),
      if_neg (by rw [htag]; decide), if_neg (by rw [htag]; decide),
      if_pos htag]
    dsimp only
    rw [huntag]
    unfold ObjectHeader.get_object_fatptr get_header get_object
    rw [hmem]
    dsimp only
    rw [show p - OBJECT_HEADER_SIZE + OBJECT_HEADER_SIZE = p from by omega]
    rw [untag_aligned p hp h64]
  | partialFn p =>
    obtain ⟨hp, h64, h8, hmem⟩ := hf
    obtain ⟨hne, htag, huntag⟩ :=
      tagPtr_facts p TAG_OBJECT hp h64 (by decide) (by decide)
    show TaggedPtr.into_fat_ptr mem (TaggedPtr.object p) =
      some (FatPtr.partialFn p)
    unfold TaggedPtr.into_fat_ptr TaggedPtr.object
    rw [if_neg hne, if_neg (by rw [htag]; decide),
      if_neg (by rw [htag]; decide), if_neg (by rw [htag]; decide),
      if_pos htag]
    dsimp only
    rw [huntag]
    unfold ObjectHeader.get_object_fatptr get_header get_object
    rw [hmem]
    dsimp only
    rw [show p - OBJECT_HEADER_SIZE + OBJECT_HEADER_SIZE = p from by omega]
    rw [untag_aligned p hp h64]
  | text p =>
    obtain ⟨hp, h64, h8, hmem⟩ := hf
    obtain ⟨hne, htag, huntag⟩ :=
      tagPtr_facts p TAG_OBJECT hp h64 (by decide) (by decide)
    show TaggedPtr.into_fat_ptr mem (TaggedPtr.object p) =
      some (FatPtr.text p)
    unfold TaggedPtr.into_fat_ptr TaggedPtr.object
    rw [if_neg hne, if_neg (by rw [htag]; decide),
      if_neg (by rw [htag]; decide), if_neg (by rw [htag]; decide),
      if_pos htag]
    dsimp only
    rw [huntag]
    unfold ObjectHeader.get_object_fatptr get_header get_object
    rw [hmem]
    dsimp only
    rw [show p - OBJECT_HEADER_SIZE + OBJECT_HEADER_SIZE = p from by omega]
    rw [untag_aligned p hp h64]
  | upvalue p =>
    obtain ⟨hp, h64, h8, hmem⟩ := hf
    obtain ⟨hne, htag, huntag⟩ :=
      tagPtr_facts p TAG_OBJECT hp h64 (by decide) (by decide)
    show TaggedPtr.into_fat_ptr mem (TaggedPtr.object p) =
      some (FatPtr.upvalue p)
    unfold TaggedPtr.into_fat_ptr TaggedPtr.object
    rw [if_neg hne, if_neg (by rw [htag]; decide),
      if_neg (by rw [htag]; decide), if_neg (by rw [htag]; decide),
      if_pos htag]
    dsimp only
    rw [huntag]
    unfold ObjectHeader.get_object_fatptr get_header get_object
    rw [hmem]
    dsimp only
    rw [show p - OBJECT_HEADER_SIZE + OBJECT_HEADER_SIZE = p from by omega]
    rw [untag_aligned p hp h64]

/-- C1 counterexample: the round trip fails on `Number 0`, which encodes
to the zero word — the nil sentinel — and decodes to `Nil`, a `FatPtr`
that is not (even under the source's own `PartialEq`) equal to
`Number 0`; it also fails on `Number 2^61`, whose two high bits are lost
by the shift and which decodes to `Number (-2^61)`. -/
theorem C1_number_zero_roundtrip_fails :
    fatPtrToTagged (FatPtr.number 0) = 0 ∧
    TaggedPtr.into_fat_ptr noHeaders (fatPtrToTagged (FatPtr.number 0)) =
      some FatPtr.nil ∧
    some FatPtr.nil ≠ some (FatPtr.number 0) ∧
    FatPtr.beq FatPtr.nil (FatPtr.number 0) = false ∧
    TaggedPtr.into_fat_ptr noHeaders
        (fatPtrToTagged (FatPtr.number (2 ^ 61))) =
      some (FatPtr.number (-(2 ^ 61))) := by
  refine ⟨rfl, rfl, by decide, rfl, by decide⟩

/-- C1 witness: the round trip at the symbol pointer 32 and the inline
number -3 (spec scenario S2). -/
theorem C1_fatptr_taggedptr_roundtrip_witness :
    TaggedPtr.into_fat_ptr noHeaders (fatPtrToTagged (FatPtr.symbol 32)) =
      some (FatPtr.symbol 32) ∧
    TaggedPtr.into_fat_ptr noHeaders (fatPtrToTagged (FatPtr.number (-3))) =
      some (FatPtr.number (-3)) :=
  ⟨C1_fatptr_taggedptr_roundtrip noHeaders (FatPtr.symbol 32)
      ⟨by decide, by decide⟩,
    C1_fatptr_taggedptr_roundtrip noHeaders (FatPtr.number (-3))
      ⟨by decide, by decide, by decide⟩⟩

/-- C4: with a head block present, a `Medium`-classified request larger
than the head's current hole is routed to `overflow_alloc`: the head block
is untouched, the space comes from the overflow block — freshly created
when the slot is empty, and retired to `rest` and replaced by a fresh
block when it has no suitable hole. -/
theorem C4_medium_overflow_routing (os : Nat → Nat)
    (hal : ∀ i, os i % BLOCK_SIZE = 0) (h : Heap) (hd : BumpBlock) (sz : Nat)
    (hhead : h.blocks.head = some hd)
    (hmed : get_for_size sz = Except.ok SizeCls.Medium)
    (hbig : hd.current_hole_size < sz)
    (hovf : ∀ o, h.blocks.overflow = some o → o.Valid) :
    find_space os h sz SizeCls.Medium = overflow_alloc os h sz ∧
    ∃ space h2 ovf2, overflow_alloc os h sz = (Except.ok space, h2) ∧
      h2.blocks.head = h.blocks.head ∧
      h2.blocks.overflow = some ovf2 ∧
      ovf2.base ≤ space ∧ space + sz ≤ ovf2.base + BLOCK_CAPACITY ∧
      (h.blocks.overflow = none →
        ovf2.base = os h.nextBlockIdx ∧ h2.blocks.rest = h.blocks.rest) ∧
      (∀ o, h.blocks.overflow = some o → o.inner_alloc sz = none →
        ovf2.base = os h.nextBlockIdx ∧
          h2.blocks.rest = h.blocks.rest ++ [o]) := by
  have hm := (get_for_size_medium sz).1 hmed
  have hcap : BLOCK_CAPACITY = 32512 := rfl
  have h1 : 1 ≤ sz := by omega
  have h2c : sz ≤ BLOCK_CAPACITY := by omega
  have hal8 := block_aligned_word_aligned os hal
  have halign : alignDown (BLOCK_CAPACITY - sz) ≤ BLOCK_CAPACITY - sz := by
    unfold alignDown
    omega
  constructor
  · unfold find_space
    rw [if_neg (by simp)]
    rw [hhead]
    dsimp only
    rw [if_pos ⟨rfl, hbig⟩]
  · unfold overflow_alloc
    rw [if_neg (by omega : ¬ (sz > BLOCK_CAPACITY))]
    cases ho : h.blocks.overflow with
    | none =>
      dsimp only
      rw [inner_alloc_fresh (os h.nextBlockIdx) sz (hal8 _) h1 h2c]
      refine ⟨_, _, _, rfl, rfl, rfl, ?_, ?_, fun _ => ⟨rfl, rfl⟩, ?_⟩
      · exact Nat.le_add_right _ _
      · show os h.nextBlockIdx + alignDown (BLOCK_CAPACITY - sz) + sz ≤
          os h.nextBlockIdx + BLOCK_CAPACITY
        omega
      · intro o hcontra
        exact Option.noConfusion hcontra
    | some o =>
      dsimp only
      have hov_valid : o.Valid := hovf o ho
      cases hov : o.inner_alloc sz with
      | some res =>
        obtain ⟨o2, space⟩ := res
        obtain ⟨g1, _, g3, _, g5, g6, g7⟩ :=
          inner_alloc_spec o sz o2 space hov_valid hov
        refine ⟨space, _, o2, rfl, rfl, rfl, by omega, ?_, ?_, ?_⟩
        · have : o.cursor ≤ o.base + BLOCK_CAPACITY := hov_valid.2.2
          omega
        · intro hcontra
          exact Option.noConfusion hcontra
        · intro o' ho' hnone
          injection ho' with ho'eq
          rw [← ho'eq] at hnone
          rw [hov] at hnone
          exact Option.noConfusion hnone
      | none =>
        rw [inner_alloc_fresh (os h.nextBlockIdx) sz (hal8 _) h1 h2c]
        refine ⟨_, _, _, rfl, rfl, rfl, Nat.le_add_right _ _, ?_, ?_, ?_⟩
        · show os h.nextBlockIdx + alignDown (BLOCK_CAPACITY - sz) + sz ≤
            os h.nextBlockIdx + BLOCK_CAPACITY
          omega
        · intro hcontra
          exact Option.noConfusion hcontra
        · intro o' ho' _
          injection ho' with ho'eq
          rw [ho'eq]
          exact ⟨rfl, rfl⟩

/-- C4 witness: a 256-byte medium request on a heap whose head block has a
zero-size hole is routed to a freshly created overflow block. -/
theorem C4_medium_overflow_routing_witness :
    find_space osAligned heapWithFullHead 256 SizeCls.Medium =
      overflow_alloc osAligned heapWithFullHead 256 ∧
    ∃ space h2 ovf2,
      overflow_alloc osAligned heapWithFullHead 256 = (Except.ok space, h2) ∧
      h2.blocks.head = heapWithFullHead.blocks.head ∧
      h2.blocks.overflow = some ovf2 ∧
      ovf2.base ≤ space ∧ space + 256 ≤ ovf2.base + BLOCK_CAPACITY ∧
      (heapWithFullHead.blocks.overflow = none →
        ovf2.base = osAligned heapWithFullHead.nextBlockIdx ∧
          h2.blocks.rest = heapWithFullHead.blocks.rest) ∧
      (∀ o, heapWithFullHead.blocks.overflow = some o →
        o.inner_alloc 256 = none →
        ovf2.base = osAligned heapWithFullHead.nextBlockIdx ∧
          h2.blocks.rest = heapWithFullHead.blocks.rest ++ [o]) :=
  C4_medium_overflow_routing osAligned
    (fun i => by unfold osAligned; exact Nat.mul_mod_left _ _)
    heapWithFullHead fullHead 256 rfl rfl (by decide)
    (fun o ho => Option.noConfusion ho)

/-- On a block whose `limit` sits at its base (no marked lines consulted
yet) with enough room, `inner_alloc` is a pure downward bump. -/
theorem inner_alloc_bump (b : BumpBlock) (sz : Nat) (hlim : b.limit = b.base)
    (hroom : b.base + sz ≤ b.cursor) (hcur : b.cursor % WORD_SIZE = 0)
    (hsz : sz % WORD_SIZE = 0) :
    b.inner_alloc sz =
      some ({ b with cursor := b.cursor - sz }, b.cursor - sz) := by
  unfold BumpBlock.inner_alloc
  rw [show LINE_COUNT + 1 = 256 + 1 from rfl, BumpBlock.innerAllocGo]
  rw [if_neg (by omega : ¬ (b.cursor < sz))]
  have halign : alignDown (b.cursor - sz) = b.cursor - sz := by
    unfold alignDown WORD_SIZE at *
    omega
  simp only [halign]
  rw [if_neg (by rw [hlim]; omega : ¬ (b.cursor - sz < b.limit))]

/-- On a block whose `limit` sits at its base, `inner_alloc` returns
`none` when the remaining room is too small: the relative limit is zero,
so no hole search happens. -/
theorem inner_alloc_exhausted (b : BumpBlock) (sz : Nat)
    (hlim : b.limit = b.base) (hnoroom : b.cursor < b.base + sz)
    (hbc : b.base ≤ b.cursor) (hcur : b.cursor % WORD_SIZE = 0)
    (hsz : sz % WORD_SIZE = 0) (hszpos : 0 < sz) :
    b.inner_alloc sz = none := by
  unfold BumpBlock.inner_alloc
  rw [show LINE_COUNT + 1 = 256 + 1 from rfl, BumpBlock.innerAllocGo]
  by_cases hcs : b.cursor < sz
  · rw [if_pos hcs]
  · rw [if_neg hcs]
    have halign : alignDown (b.cursor - sz) = b.cursor - sz := by
      unfold alignDown WORD_SIZE at *
      omega
    simp only [halign]
    rw [if_pos (by rw [hlim]; omega : b.cursor - sz < b.limit)]
    rw [if_neg (by rw [hlim]; omega : ¬ (b.limit - b.base > 0))]

/-- Separated block bases stay separated across any index gap. -/
theorem os_sep (os : Nat → Nat)
    (hmono : ∀ i, os i + BLOCK_SIZE ≤ os (i + 1)) :
    ∀ i j, i < j → os i + BLOCK_SIZE ≤ os j := by
  intro i j
  induction j with
  | zero => omega
  | succ j ih =>
    intro hij
    rcases Nat.lt_succ_iff_lt_or_eq.1 hij with hlt | heq
    · have h1 := ih hlt
      have h2 := hmono j
      omega
    · subst heq
      exact hmono i

/-- An `assocGet` hit is an entry of the list. -/
theorem assocGet_mem_entry (m : List (String × Nat)) (s : String) (p : Nat)
    (h : assocGet m s = some p) : (s, p) ∈ m := by
  induction m with
  | nil => simp [assocGet] at h
  | cons e rest ih =>
    obtain ⟨k, v⟩ := e
    unfold assocGet at h
    split_ifs at h with hk
    · injection h with h2
      subst hk
      subst h2
      exact List.mem_cons_self _ _
    · exact List.mem_cons_of_mem _ (ih h)

/-- Hits for different keys in a value-Nodup association list are
different values. -/
theorem assocGet_ne_of_ne (m : List (String × Nat))
    (hnd : (m.map Prod.snd).Nodup) (s t : String) (p q : Nat)
    (hs : assocGet m s = some p) (ht : assocGet m t = some q)
    (hst : s ≠ t) : p ≠ q := by
  induction m with
  | nil => simp [assocGet] at hs
  | cons e rest ih =>
    obtain ⟨k, v⟩ := e
    rw [List.map_cons, List.nodup_cons] at hnd
    obtain ⟨hv, hnd2⟩ := hnd
    unfold assocGet at hs ht
    split_ifs at hs ht with hk1 hk2 hk2
    · exact absurd (hk1.symm.trans hk2) hst
    · injection hs with hs2
      subst hs2
      intro hpq
      exact hv (by
        rw [hpq]
        exact List.mem_map.2 ⟨(t, q), assocGet_mem_entry rest t q ht, rfl⟩)
    · injection ht with ht2
      subst ht2
      intro hpq
      exact hv (by
        rw [← hpq]
        exact List.mem_map.2 ⟨(s, p), assocGet_mem_entry rest s p hs, rfl⟩)
    · exact ih hnd2 hs ht

/-- Allocating a `Symbol` in the arena of an invariant-satisfying
`SymbolMap` succeeds, returns a pointer distinct from every interned
pointer, and preserves the invariant after inserting the new entry. -/
theorem arena_symbol_alloc (os : Nat → Nat)
    (hal : ∀ i, os i % BLOCK_SIZE = 0)
    (hmono : ∀ i, os i + BLOCK_SIZE ≤ os (i + 1))
    (sm : SymbolMap) (hinv : SymbolMap.Inv os sm) (name : String) :
    ∃ ptr arena2,
      Arena.alloc os sm.arena SYMBOL_SIZE = (Except.ok ptr, arena2) ∧
      (∀ e ∈ sm.map, e.2 ≠ ptr) ∧
      SymbolMap.Inv os { map := (name, ptr) :: sm.map, arena := arena2 } := by
  obtain ⟨hhead, hnodup, hregion⟩ := hinv
  have hal8 := block_aligned_word_aligned os hal
  have hB : BLOCK_SIZE = 32768 := rfl
  have hCap : BLOCK_CAPACITY = 32512 := rfl
  have hw : WORD_SIZE = 8 := rfl
  have hsize : alloc_size_of (ARENA_HEADER_SIZE + SYMBOL_SIZE) = 16 := rfl
  have hcls : get_for_size 16 = Except.ok SizeCls.Small := rfl
  have hsep := os_sep os hmono
  unfold Arena.alloc heapAlloc
  dsimp only
  rw [hsize, hcls]
  dsimp only
  cases hh : sm.arena.blocks.head with
  | none =>
    have hmapnil : sm.map = [] := by
      rw [hh] at hhead
      exact hhead
    have hfs : find_space os sm.arena 16 SizeCls.Small =
        (Except.ok (os sm.arena.nextBlockIdx + 32496),
          Heap.mk (BlockList.mk
            (some (BumpBlock.mk (os sm.arena.nextBlockIdx)
              (os sm.arena.nextBlockIdx + 32496)
              (os sm.arena.nextBlockIdx) (fun _ => false)))
            sm.arena.blocks.overflow sm.arena.blocks.rest)
            (sm.arena.nextBlockIdx + 1)) := by
      unfold find_space
      rw [if_neg (by simp), hh]
      dsimp only
      rw [inner_alloc_fresh _ 16 (hal8 _) (by omega) (by rw [hCap]; omega)]
      rfl
    rw [hfs]
    dsimp only
    refine ⟨os sm.arena.nextBlockIdx + 32496, _, rfl, ?_, ?_, ?_, ?_⟩
    · rw [hmapnil]
      intro e he
      simp at he
    · have h8 := hal8 sm.arena.nextBlockIdx
      rw [hw] at h8
      dsimp only
      refine ⟨rfl, fun n => rfl, by rw [hw]; omega, by omega,
        by rw [hCap]; omega, sm.arena.nextBlockIdx, rfl, rfl⟩
    · dsimp only
      rw [hmapnil]
      simp
    · dsimp only
      rw [hmapnil]
      intro e he
      simp only [List.mem_singleton] at he
      subst he
      have h8 := hal8 sm.arena.nextBlockIdx
      refine ⟨sm.arena.nextBlockIdx, by omega, by omega, by rw [hCap]; omega, ?_⟩
      intro b hb hbase
      injection hb with hb2
      rw [← hb2]
  | some b =>
    rw [hh] at hhead
    obtain ⟨hlim, hmarks, hcur8, hbc, hcc, j, hj, hbase⟩ := hhead
    rw [hw] at hcur8
    by_cases hroom : b.base + 16 ≤ b.cursor
    · -- the head block has room: a pure bump
      have hfs : find_space os sm.arena 16 SizeCls.Small =
          (Except.ok (b.cursor - 16),
            Heap.mk (BlockList.mk
              (some (BumpBlock.mk b.base (b.cursor - 16) b.limit b.lineMark))
              sm.arena.blocks.overflow sm.arena.blocks.rest)
              sm.arena.nextBlockIdx) := by
        unfold find_space
        rw [if_neg (by simp), hh]
        dsimp only
        rw [if_neg (by simp)]
        rw [inner_alloc_bump b 16 hlim hroom (by rw [hw]; omega) rfl]
      rw [hfs]
      dsimp only
      have hfresh : ∀ e ∈ sm.map, e.2 ≠ b.cursor - 16 := by
        intro e he
        obtain ⟨i, hik, hlo2, hhi2, hcond⟩ := hregion e he
        by_cases hij : i = j
        · subst hij
          have := hcond b hh (by rw [hbase])
          omega
        · rcases lt_or_gt_of_ne hij with hlt | hgt
          · have hs2 := hsep i j hlt
            rw [hB] at hs2
            rw [hCap] at hhi2
            rw [← hbase] at hs2
            omega
          · have hs2 := hsep j i hgt
            rw [hB] at hs2
            rw [hCap] at hcc
            rw [← hbase] at hs2
            omega
      refine ⟨b.cursor - 16, _, rfl, hfresh, ?_, ?_, ?_⟩
      · dsimp only
        refine ⟨hlim, hmarks, by rw [hw]; omega, by omega, by omega,
          j, hj, hbase⟩
      · dsimp only
        rw [List.map_cons, List.nodup_cons]
        refine ⟨?_, hnodup⟩
        intro hmem
        obtain ⟨e, he, hsnd⟩ := List.mem_map.1 hmem
        exact hfresh e he hsnd
      · dsimp only
        intro e he
        rw [List.mem_cons] at he
        rcases he with he | he
        · subst he
          refine ⟨j, by omega, by rw [← hbase]; omega, ?_, ?_⟩
          · rw [← hbase]
            omega
          · intro b2 hb2 hbase2
            injection hb2 with hb3
            rw [← hb3]
        · obtain ⟨i, hik, hlo2, hhi2, hcond⟩ := hregion e he
          refine ⟨i, hik, hlo2, hhi2, ?_⟩
          intro b2 hb2 hbase2
          injection hb2 with hb3
          rw [← hb3]
          rw [← hb3] at hbase2
          have := hcond b hh hbase2
          show b.cursor - 16 ≤ e.2
          omega
    · -- the head block is exhausted: retire it and bump a fresh block
      have hnoroom : b.cursor < b.base + 16 := by omega
      have hnone : b.inner_alloc 16 = none :=
        inner_alloc_exhausted b 16 hlim hnoroom hbc (by rw [hw]; omega) rfl
          (by omega)
      have hfs : find_space os sm.arena 16 SizeCls.Small =
          (Except.ok (os sm.arena.nextBlockIdx + 32496),
            Heap.mk (BlockList.mk
              (some (BumpBlock.mk (os sm.arena.nextBlockIdx)
                (os sm.arena.nextBlockIdx + 32496)
                (os sm.arena.nextBlockIdx) (fun _ => false)))
              sm.arena.blocks.overflow (sm.arena.blocks.rest ++ [b]))
              (sm.arena.nextBlockIdx + 1)) := by
        unfold find_space
        rw [if_neg (by simp), hh]
        dsimp only
        rw [if_neg (by simp)]
        rw [hnone]
        dsimp only
        rw [inner_alloc_fresh _ 16 (hal8 _) (by omega) (by rw [hCap]; omega)]
        rfl
      rw [hfs]
      dsimp only
      have hfresh : ∀ e ∈ sm.map, e.2 ≠ os sm.arena.nextBlockIdx + 32496 := by
        intro e he
        obtain ⟨i, hik, hlo2, hhi2, hcond⟩ := hregion e he
        have hs2 := hsep i sm.arena.nextBlockIdx hik
        rw [hB] at hs2
        rw [hCap] at hhi2
        omega
      refine ⟨os sm.arena.nextBlockIdx + 32496, _, rfl, hfresh, ?_, ?_, ?_⟩
      · have h8 := hal8 sm.arena.nextBlockIdx
        rw [hw] at h8
        dsimp only
        refine ⟨rfl, fun n => rfl, by rw [hw]; omega, by omega,
          by rw [hCap]; omega, sm.arena.nextBlockIdx, rfl, rfl⟩
      · dsimp only
        rw [List.map_cons, List.nodup_cons]
        refine ⟨?_, hnodup⟩
        intro hmem
        obtain ⟨e, he, hsnd⟩ := List.mem_map.1 hmem
        exact hfresh e he hsnd
      · dsimp only
        intro e he
        rw [List.mem_cons] at he
        rcases he with he | he
        · subst he
          refine ⟨sm.arena.nextBlockIdx, by omega, by omega,
            by rw [hCap]; omega, ?_⟩
          intro b2 hb2 hbase2
          injection hb2 with hb3
          rw [← hb3]
        · obtain ⟨i, hik, hlo2, hhi2, hcond⟩ := hregion e he
          refine ⟨i, by omega, hlo2, hhi2, ?_⟩
          intro b2 hb2 hbase2
          injection hb2 with hb3
          rw [← hb3] at hbase2
          exfalso
          have hs2 := hsep i sm.arena.nextBlockIdx hik
          rw [hB] at hs2
          have hbase3 : os sm.arena.nextBlockIdx = os i := hbase2
          omega

/-- `lookup` on a mapped name returns the mapped pointer without touching
the state. -/
theorem lookup_hit (os : Nat → Nat) (sm : SymbolMap) (name : String)
    (p : Nat) (h : assocGet sm.map name = some p) :
    SymbolMap.lookup os sm name = some (p, sm) := by
  unfold SymbolMap.lookup
  rw [h]

/-- `lookup` on an unmapped name allocates a fresh symbol pointer,
inserts the entry, and preserves the invariant. -/
theorem lookup_miss (os : Nat → Nat)
    (hal : ∀ i, os i % BLOCK_SIZE = 0)
    (hmono : ∀ i, os i + BLOCK_SIZE ≤ os (i + 1))
    (sm : SymbolMap) (hinv : SymbolMap.Inv os sm) (name : String)
    (h : assocGet sm.map name = none) :
    ∃ p sm2, SymbolMap.lookup os sm name = some (p, sm2) ∧
      sm2.map = (name, p) :: sm.map ∧
      SymbolMap.Inv os sm2 ∧ (∀ e ∈ sm.map, e.2 ≠ p) := by
  obtain ⟨ptr, arena2, halloc, hfresh, hinv2⟩ :=
    arena_symbol_alloc os hal hmono sm hinv name
  refine ⟨ptr, _, ?_, rfl, hinv2, hfresh⟩
  unfold SymbolMap.lookup
  rw [h, halloc]

/-- C5: on an invariant-satisfying `SymbolMap`, `lookup` is total; looking
the same name up twice returns the identical pointer (and state), and for
any two names the returned pointers are equal exactly when the names are
equal. -/
theorem C5_symbol_lookup_interning (os : Nat → Nat)
    (hal : ∀ i, os i % BLOCK_SIZE = 0)
    (hmono : ∀ i, os i + BLOCK_SIZE ≤ os (i + 1))
    (sm : SymbolMap) (hinv : SymbolMap.Inv os sm) (s t : String) :
    ∃ p sm1 q sm2,
      SymbolMap.lookup os sm s = some (p, sm1) ∧
      SymbolMap.lookup os sm1 s = some (p, sm1) ∧
      SymbolMap.lookup os sm1 t = some (q, sm2) ∧
      (p = q ↔ s = t) := by
  cases hs : assocGet sm.map s with
  | some p =>
    have h1 : SymbolMap.lookup os sm s = some (p, sm) := lookup_hit os sm s p hs
    cases ht : assocGet sm.map t with
    | some q =>
      have h2 := lookup_hit os sm t q ht
      refine ⟨p, sm, q, sm, h1, h1, h2, ?_⟩
      constructor
      · intro hpq
        by_contra hst
        exact assocGet_ne_of_ne sm.map hinv.2.1 s t p q hs ht hst hpq
      · intro hst
        subst hst
        rw [hs] at ht
        exact Option.some.inj ht
    | none =>
      obtain ⟨q, sm2, h2, hmap2, hinv2, hfr⟩ :=
        lookup_miss os hal hmono sm hinv t ht
      refine ⟨p, sm, q, sm2, h1, h1, h2, ?_⟩
      have hst : s ≠ t := by
        intro he
        subst he
        rw [hs] at ht
        exact Option.noConfusion ht
      have hpq : p ≠ q := hfr (s, p) (assocGet_mem_entry sm.map s p hs)
      exact ⟨fun h => absurd h hpq, fun h => absurd h hst⟩
  | none =>
    obtain ⟨p, sm1, h1, hmap1, hinv1, hfr1⟩ :=
      lookup_miss os hal hmono sm hinv s hs
    have hs1 : assocGet sm1.map s = some p := by
      rw [hmap1]
      show (if s = s then some p else assocGet sm.map s) = some p
      rw [if_pos rfl]
    have h1b : SymbolMap.lookup os sm1 s = some (p, sm1) :=
      lookup_hit os sm1 s p hs1
    by_cases hst : t = s
    · subst hst
      exact ⟨p, sm1, p, sm1, h1, h1b, h1b, by simp⟩
    · have hsget : assocGet sm1.map t = assocGet sm.map t := by
        rw [hmap1]
        show (if s = t then some p else assocGet sm.map t) = assocGet sm.map t
        rw [if_neg (fun h => hst h.symm)]
      cases ht : assocGet sm.map t with
      | some q =>
        have h2 : SymbolMap.lookup os sm1 t = some (q, sm1) :=
          lookup_hit os sm1 t q (by rw [hsget, ht])
        refine ⟨p, sm1, q, sm1, h1, h1b, h2, ?_⟩
        have hpq : p ≠ q := fun he =>
          (hfr1 (t, q) (assocGet_mem_entry sm.map t q ht)) he.symm
        exact ⟨fun h => absurd h hpq, fun h => absurd h.symm hst⟩
      | none =>
        have ht1 : assocGet sm1.map t = none := by rw [hsget, ht]
        obtain ⟨q, sm2, h2, hmap2, hinv2, hfr2⟩ :=
          lookup_miss os hal hmono sm1 hinv1 t ht1
        refine ⟨p, sm1, q, sm2, h1, h1b, h2, ?_⟩
        have hpq : p ≠ q :=
          hfr2 (s, p) (by rw [hmap1]; exact List.mem_cons_self _ _)
        exact ⟨fun h => absurd h hpq, fun h => absurd h.symm hst⟩

/-- C5 witness: interning "foo" twice and "bar" once on a fresh
`SymbolMap` with disjoint aligned OS blocks. -/
theorem C5_symbol_lookup_interning_witness :
    ∃ p sm1 q sm2,
      SymbolMap.lookup osAligned SymbolMap.new "foo" = some (p, sm1) ∧
      SymbolMap.lookup osAligned sm1 "foo" = some (p, sm1) ∧
      SymbolMap.lookup osAligned sm1 "bar" = some (q, sm2) ∧
      (p = q ↔ "foo" = "bar") :=
  C5_symbol_lookup_interning osAligned
    (fun i => by unfold osAligned; exact Nat.mul_mod_left _ _)
    (fun i => by
      show (i + 1) * BLOCK_SIZE + BLOCK_SIZE ≤ (i + 1 + 1) * BLOCK_SIZE
      have hB : BLOCK_SIZE = 32768 := rfl
      rw [hB]
      omega)
    SymbolMap.new
    ⟨rfl, List.nodup_nil, fun e he => absurd he (List.not_mem_nil e)⟩
    "foo" "bar"
